import Mathlib

/-!
# Verification of the haze-client-assets store manager

Shallow embedding of `store-manager.js` (the asset manifest
synchronization and multipart ingestion pipeline) together with proofs
about its behaviour.

Modelling conventions:
* Raw request bodies are byte lists (`List Nat`, each entry `< 256`).
  `Buffer.indexOf`, `Buffer.slice` and the targeted
  `name="..."` / `filename="..."` header matching are translated
  byte-for-byte; UTF-8 decoding of ASCII header bytes is modelled as the
  identity on bytes.
* The filesystem is a flat map from normalized absolute paths (lists of
  path segments) to file byte sizes.  `path.join` is modelled by
  splitting on `/` and normalizing `.`, `..` and empty segments exactly
  as Node's POSIX implementation does; the sandbox checks, which the
  source performs on the *rendered strings*, are modelled on rendered
  strings as well.
* The persisted manifest is modelled as a typed record; JSON
  serialization followed by parsing is modelled as the identity, with an
  `extra` field standing for any top-level JSON fields the store manager
  does not touch.
-/

set_option maxRecDepth 8192
set_option maxHeartbeats 2000000
set_option linter.unusedTactic false

namespace HazeStore

/-- Bytes of an ASCII string (the code points of its characters). -/
def str2bytes (s : String) : List Nat := s.data.map Char.toNat

/-- One decoded multipart part, as produced by `parseMultipart`:
a field name (empty when no `name="..."` attribute matched), an optional
filename (`none` for a plain form field) and the raw body bytes. -/
structure Part where
  name : List Nat
  filename : Option (List Nat)
  data : List Nat
deriving Repr, DecidableEq

/-- First index (in `l`) at which `sep` occurs as a prefix of the
remaining list; `Buffer.indexOf` restricted to offset 0. -/
def firstOccAux (sep : List Nat) : List Nat → Option Nat
  | [] => none
  | b :: rest =>
    if sep.isPrefixOf (b :: rest) then some 0
    else (firstOccAux sep rest).map (· + 1)

/-- `buf.indexOf(sep, start)` for a nonempty needle: the least index
`≥ start` at which `sep` occurs in `buf`, as an absolute index. -/
def firstOccFrom (buf sep : List Nat) (start : Nat) : Option Nat :=
  (firstOccAux sep (buf.drop start)).map (· + start)

/-- `buf.slice(start, stop)` (both bounds clamped). -/
def sliceList (buf : List Nat) (start stop : Nat) : List Nat :=
  (buf.take stop).drop start

/-- The byte of a double quote. -/
def quoteByte : Nat := 34

/-- Attempt the capture part of `/name="([^"]+)"/` right after the
literal needle: a nonempty maximal run of non-quote bytes followed by a
closing quote. -/
def captureAfter (s : List Nat) : Option (List Nat) :=
  let run := s.takeWhile (· ≠ quoteByte)
  if run = [] then none
  else if (s.drop run.length).head? = some quoteByte then some run
  else none

/-- Leftmost match of the pattern `<needle>([^"]+)"` in `s`, returning
the capture group; models `s.match(/name="([^"]+)"/)` (and the
`filename` variant) of the source. -/
def regexFind (needle : List Nat) : List Nat → Option (List Nat)
  | [] => none
  | c :: rest =>
    match (if needle.isPrefixOf (c :: rest)
           then captureAfter ((c :: rest).drop needle.length)
           else none) with
    | some cap => some cap
    | none => regexFind needle rest

/-- The byte sequence `\r\n\r\n`. -/
def crlfcrlf : List Nat := [13, 10, 13, 10]

/-- The byte sequence `\r\n`. -/
def crlf : List Nat := [13, 10]

/-- The byte sequence `--`. -/
def dashdash : List Nat := [45, 45]

/-- Needle bytes of `name="`. -/
def nameNeedle : List Nat := str2bytes "name=\""

/-- Needle bytes of `filename="`. -/
def fileNeedle : List Nat := str2bytes "filename=\""

/-- Process one chunk between successive delimiters: locate the first
blank-line sequence, split into header block and body block, strip the
trailing line terminator, and run the two targeted header matches.
Returns `none` when no header/body separator can be located (the chunk
is then silently dropped). -/
def parseChunk (chunk : List Nat) : Option Part :=
  match firstOccFrom chunk crlfcrlf 0 with
  | none => none
  | some headerEnd =>
    let headers := sliceList chunk 0 headerEnd
    let body := sliceList chunk (headerEnd + 4) (chunk.length - 2)
    some { name := (regexFind nameNeedle headers).getD []
           filename := regexFind fileNeedle headers
           data := body }

/-- The scanning loop of `parseMultipart`.  `start` is the absolute
offset just past the previous delimiter's trailing two bytes; each
iteration finds the next delimiter, emits the chunk between them (when
`start > 0`), advances past the delimiter, and stops once the delimiter
is immediately followed by `--`.  The loop always terminates because
`start` strictly increases; `fuel` only bounds the recursion. -/
def parseLoop (buf sep : List Nat) : Nat → Nat → List Part → List Part
  | 0, _, acc => acc
  | fuel + 1, start, acc =>
    match firstOccFrom buf sep start with
    | none => acc
    | some idx =>
      let acc' :=
        if start > 0 then
          match parseChunk (sliceList buf start idx) with
          | some part => acc ++ [part]
          | none => acc
        else acc
      if sliceList buf (idx + sep.length) (idx + sep.length + 2) = dashdash
      then acc'
      else parseLoop buf sep fuel (idx + sep.length + 2) acc'

/-- `parseMultipart(buf, boundary)` from the source: scan for
`--<boundary>` delimiters and decode the spans between them. -/
def parseMultipart (buf : List Nat) (boundary : List Nat) : List Part :=
  parseLoop buf (dashdash ++ boundary) (buf.length + 1) 0 []

example :
    parseMultipart
      (str2bytes "--B\r\nContent-Disposition: form-data; name=\"weapon\"\r\n\r\nar\r\n--B--\r\n")
      (str2bytes "B") =
    [⟨str2bytes "weapon", none, str2bytes "ar"⟩] := by decide

/-! ## Occurrence toolkit for the delimiter scan -/

/-- `sep` occurs in `buf` at absolute index `i`. -/
def OccAt (sep buf : List Nat) (i : Nat) : Prop := sep <+: buf.drop i

instance (sep buf : List Nat) (i : Nat) : Decidable (OccAt sep buf i) :=
  inferInstanceAs (Decidable (sep <+: buf.drop i))

theorem occAt_zero {sep buf : List Nat} (h : sep <+: buf) : OccAt sep buf 0 := by
  simpa [OccAt] using h

theorem firstOccAux_eq_some {sep l : List Nat} (hsep : sep ≠ []) :
    ∀ {j : Nat}, sep <+: l.drop j → (∀ i, i < j → ¬ sep <+: l.drop i) →
      firstOccAux sep l = some j := by
  induction l with
  | nil =>
    intro j hj _
    rw [List.drop_nil] at hj
    exact absurd (List.prefix_nil.mp hj) hsep
  | cons b rest ih =>
    intro j hj hmin
    cases j with
    | zero =>
      have : sep.isPrefixOf (b :: rest) = true := by
        rw [List.isPrefixOf_iff_prefix]; simpa using hj
      simp [firstOccAux, this]
    | succ n =>
      have hnot : ¬ sep <+: (b :: rest) := by
        have := hmin 0 (Nat.succ_pos n)
        simpa using this
      have hb : sep.isPrefixOf (b :: rest) = false := by
        rw [Bool.eq_false_iff]
        intro hc
        exact hnot (List.isPrefixOf_iff_prefix.mp hc)
      have hrec : firstOccAux sep rest = some n := by
        apply ih
        · simpa using hj
        · intro i hi
          have := hmin (i + 1) (by omega)
          simpa using this
      simp [firstOccAux, hb, hrec]

theorem firstOccAux_eq_none {sep l : List Nat}
    (h : ∀ i, ¬ sep <+: l.drop i) : firstOccAux sep l = none := by
  induction l with
  | nil =>
    cases sep with
    | nil => exact absurd (h 0 (by simp)) (by simp)
    | cons s ss => rfl
  | cons b rest ih =>
    have hb : sep.isPrefixOf (b :: rest) = false := by
      rw [Bool.eq_false_iff]
      intro hc
      exact h 0 (by simpa using List.isPrefixOf_iff_prefix.mp hc)
    have hrec : firstOccAux sep rest = none := by
      apply ih
      intro i
      have := h (i + 1)
      simpa using this
    simp [firstOccAux, hb, hrec]

/-- Characterization of the delimiter search: if `sep` occurs at `j ≥ start`
and nowhere in `[start, j)`, the search from `start` returns `j`. -/
theorem firstOccFrom_eq_some {buf sep : List Nat} {start j : Nat}
    (hsep : sep ≠ [])
    (hle : start ≤ j) (hocc : OccAt sep buf j)
    (hmin : ∀ i, start ≤ i → i < j → ¬ OccAt sep buf i) :
    firstOccFrom buf sep start = some j := by
  unfold firstOccFrom
  have hj : sep <+: (buf.drop start).drop (j - start) := by
    rw [List.drop_drop]
    have heq : start + (j - start) = j := by omega
    rw [heq]
    exact hocc
  have haux : firstOccAux sep (buf.drop start) = some (j - start) := by
    apply firstOccAux_eq_some hsep hj
    intro i hi
    rw [List.drop_drop]
    exact hmin (start + i) (by omega) (by omega)
  rw [haux]
  simp
  omega

theorem firstOccFrom_eq_none {buf sep : List Nat} {start : Nat}
    (h : ∀ i, start ≤ i → ¬ OccAt sep buf i) :
    firstOccFrom buf sep start = none := by
  unfold firstOccFrom
  rw [firstOccAux_eq_none]
  · rfl
  · intro i
    rw [List.drop_drop]
    exact h (start + i) (by omega)

/-- An occurrence window never covers a byte that is not in the needle. -/
theorem not_occAt_of_byte {sep buf : List Nat} {i j : Nat} {b : Nat}
    (hj : buf[j]? = some b) (hb : b ∉ sep)
    (h1 : i ≤ j) (h2 : j < i + sep.length) : ¬ OccAt sep buf i := by
  intro hocc
  rcases hocc with ⟨t, ht⟩
  have hget : (buf.drop i)[j - i]? = some b := by
    rw [List.getElem?_drop]
    have : i + (j - i) = j := by omega
    rw [this]; exact hj
  rw [← ht] at hget
  rw [List.getElem?_append_left (by omega)] at hget
  exact hb (List.getElem?_mem hget)

/-- Restrict an occurrence to a prefix region of an append. -/
theorem occAt_append_left {sep A B : List Nat} {i : Nat}
    (hlen : i + sep.length ≤ A.length) :
    OccAt sep (A ++ B) i ↔ OccAt sep A i := by
  unfold OccAt
  rw [List.drop_append_of_le_length (by omega),
    List.prefix_iff_eq_take, List.prefix_iff_eq_take,
    List.take_append_of_le_length (by simp; omega)]

/-- Shift an occurrence across a known-length left part of an append. -/
theorem occAt_append_right {sep A B : List Nat} {i : Nat} :
    OccAt sep (A ++ B) (A.length + i) ↔ OccAt sep B i := by
  unfold OccAt
  rw [List.drop_append]

/-- Any occurrence is an infix. -/
theorem isInfix_of_occAt {sep buf : List Nat} {i : Nat}
    (h : OccAt sep buf i) : sep <:+: buf := by
  rcases h with ⟨t, ht⟩
  exact ⟨buf.take i, t, by rw [List.append_assoc, ht, List.take_append_drop]⟩

/-- Occurrence of a cons needle fixes the byte at the occurrence index. -/
theorem occAt_byte_eq {b : Nat} {bs buf : List Nat} {i : Nat}
    (hocc : OccAt (b :: bs) buf i) : buf[i]? = some b := by
  rcases hocc with ⟨t, ht⟩
  have h0 : (buf.drop i)[0]? = some b := by
    rw [← ht]; simp
  rw [List.getElem?_drop] at h0
  simpa using h0

/-- Slices that end inside the left part of an append ignore the right part. -/
theorem sliceList_append_left {A B : List Nat} {s t : Nat}
    (h : t ≤ A.length) : sliceList (A ++ B) s t = sliceList A s t := by
  unfold sliceList
  rw [List.take_append_of_le_length h]

/-- Extracting the middle component of a three-part concatenation. -/
theorem sliceList_middle (A B C : List Nat) :
    sliceList (A ++ (B ++ C)) A.length (A.length + B.length) = B := by
  unfold sliceList
  rw [List.take_append, List.take_left, List.drop_left]

/-- One loop iteration that does not hit the end marker. -/
theorem parseLoop_step {buf sep : List Nat} {start j : Nat}
    (fuel : Nat) (acc : List Part)
    (hocc : firstOccFrom buf sep start = some j)
    (hne : sliceList buf (j + sep.length) (j + sep.length + 2) ≠ dashdash) :
    parseLoop buf sep (fuel + 1) start acc =
      parseLoop buf sep fuel (j + sep.length + 2)
        (if start > 0 then
          match parseChunk (sliceList buf start j) with
          | some part => acc ++ [part]
          | none => acc
        else acc) := by
  simp only [parseLoop, hocc, if_neg hne]

/-- The final loop iteration: the found delimiter is followed by `--`. -/
theorem parseLoop_last {buf sep : List Nat} {start j : Nat}
    (fuel : Nat) (acc : List Part)
    (hocc : firstOccFrom buf sep start = some j)
    (hend : sliceList buf (j + sep.length) (j + sep.length + 2) = dashdash) :
    parseLoop buf sep (fuel + 1) start acc =
      (if start > 0 then
        match parseChunk (sliceList buf start j) with
        | some part => acc ++ [part]
        | none => acc
      else acc) := by
  simp only [parseLoop, hocc, if_pos hend]

/-- Decoding a well-formed chunk `H ++ \r\n\r\n ++ V ++ \r\n` whose header
block contains no carriage return: the blank-line sequence is found right
after `H`, the header matches run on `H`, and the body is exactly `V`. -/
theorem parseChunk_concat (H V : List Nat) (h13 : (13 : Nat) ∉ H) :
    parseChunk (H ++ ([13, 10, 13, 10] ++ (V ++ [13, 10]))) =
      some { name := (regexFind nameNeedle H).getD []
             filename := regexFind fileNeedle H
             data := V } := by
  have hocc : firstOccFrom (H ++ ([13, 10, 13, 10] ++ (V ++ [13, 10])))
      crlfcrlf 0 = some H.length := by
    apply firstOccFrom_eq_some (by simp [crlfcrlf]) (Nat.zero_le _)
    · unfold OccAt
      rw [List.drop_left]
      exact ⟨V ++ [13, 10], rfl⟩
    · intro i _ hi hoc
      have hb := occAt_byte_eq
        (show OccAt (13 :: [10, 13, 10]) _ i from hoc)
      rw [List.getElem?_append_left hi] at hb
      exact h13 (List.getElem?_mem hb)
  have hheaders :
      sliceList (H ++ ([13, 10, 13, 10] ++ (V ++ [13, 10]))) 0 H.length = H := by
    unfold sliceList
    rw [List.take_left]
    simp
  have hbody :
      sliceList (H ++ ([13, 10, 13, 10] ++ (V ++ [13, 10]))) (H.length + 4)
        ((H ++ ([13, 10, 13, 10] ++ (V ++ [13, 10]))).length - 2) = V := by
    rw [show H ++ ([13, 10, 13, 10] ++ (V ++ [13, 10])) =
      (H ++ [13, 10, 13, 10]) ++ (V ++ [13, 10]) from (List.append_assoc ..).symm]
    have h1 : ((H ++ [13, 10, 13, 10]) ++ (V ++ [13, 10])).length - 2 =
        (H ++ [13, 10, 13, 10]).length + V.length := by
      simp
      omega
    have h2 : H.length + 4 = (H ++ [13, 10, 13, 10]).length := by simp
    rw [h1, h2, sliceList_middle]
  unfold parseChunk
  simp only [hocc, hheaders, hbody]

/-- Slices entirely inside the right part of an append. -/
theorem sliceList_suffix (A B : List Nat) {s t : Nat}
    (hs : A.length ≤ s) (ht : A.length ≤ t) :
    sliceList (A ++ B) s t = sliceList B (s - A.length) (t - A.length) := by
  unfold sliceList
  rw [List.take_append_eq_append_take, List.take_of_length_le ht,
    List.drop_append_eq_append_drop,
    List.drop_eq_nil_of_le hs, List.nil_append]

/-! ## C1: multipart fidelity on a two-part body with binary payload -/

/-- The boundary token `X` of the multipart-fidelity scenario. -/
def boundaryX : List Nat := str2bytes "X"

/-- The delimiter `--X`. -/
def sepX : List Nat := str2bytes "--X"

/-- Header block of the plain field part `weapon`. -/
def hdrWeapon : List Nat :=
  str2bytes "Content-Disposition: form-data; name=\"weapon\""

/-- Header block of the file part `file` / `tex.png`. -/
def hdrFile : List Nat :=
  str2bytes "Content-Disposition: form-data; name=\"file\"; filename=\"tex.png\""

/-- Everything of the two-part multipart body up to (and including) the
blank line that precedes the file payload. -/
def c1Pre : List Nat :=
  sepX ++ crlf ++ hdrWeapon ++ crlfcrlf ++ str2bytes "ar" ++ crlf ++
  sepX ++ crlf ++ hdrFile ++ crlfcrlf

/-- Trailing line terminator, closing delimiter and end marker. -/
def c1Suf : List Nat := crlf ++ sepX ++ dashdash ++ crlf

/-- A literal multipart body with boundary `X`: a plain field
`weapon=ar` followed by a file part `file=tex.png` with the given
payload bytes. -/
def c1Body (payload : List Nat) : List Nat := c1Pre ++ (payload ++ c1Suf)

theorem c1Pre_length : c1Pre.length = 130 := by decide

theorem sepX_length : sepX.length = 3 := by decide

/-- **C1.** For the canonical two-part multipart body with boundary `X`
— a plain field `weapon=ar` and a file part `file=tex.png` carrying
arbitrary binary payload bytes — as long as the payload does not contain
the exact delimiter `--X` (bytes merely resembling it are fine),
decoding yields exactly the two parts, with the file payload byte-exact
and only the trailing line terminator stripped. -/
theorem c1_multipart_fidelity (payload : List Nat)
    (hp : ¬ sepX <:+: payload) :
    parseMultipart (c1Body payload) boundaryX =
      [{ name := str2bytes "weapon", filename := none, data := str2bytes "ar" },
       { name := str2bytes "file", filename := some (str2bytes "tex.png"),
         data := payload }] := by
  unfold parseMultipart
  rw [show dashdash ++ boundaryX = sepX from rfl]
  have h3 : sepX.length = 3 := sepX_length
  have h130 : c1Pre.length = 130 := c1Pre_length
  have hblen : (c1Body payload).length = 139 + payload.length := by
    have h9 : c1Suf.length = 9 := by decide
    unfold c1Body
    rw [List.length_append, List.length_append, h130, h9]
    omega
  have hmin1 : ∀ i < 58, 5 ≤ i → ¬ OccAt sepX c1Pre i := by decide
  have hmin2 : ∀ i < 128, 63 ≤ i → ¬ OccAt sepX c1Pre i := by decide
  -- iteration 1: delimiter at offset 0, nothing emitted
  have hf1 : firstOccFrom (c1Body payload) sepX 0 = some 0 := by
    apply firstOccFrom_eq_some (by decide) (Nat.le_refl 0)
    · apply occAt_zero
      unfold c1Body
      exact (show sepX <+: c1Pre by decide).trans (List.prefix_append _ _)
    · intro i h1 h2
      omega
  have hbreak1 : sliceList (c1Body payload) (0 + sepX.length)
      (0 + sepX.length + 2) ≠ dashdash := by
    unfold c1Body
    rw [sliceList_append_left (by rw [h130]; omega)]
    decide
  rw [show (c1Body payload).length + 1 =
    (((c1Body payload).length - 2) + 1) + 1 + 1 by omega]
  rw [parseLoop_step _ _ hf1 hbreak1,
    if_neg (by omega : ¬ (0 : Nat) > 0),
    show (0 + sepX.length + 2 : Nat) = 5 from rfl]
  -- iteration 2: delimiter at offset 58, emits the `weapon` field
  have hf2 : firstOccFrom (c1Body payload) sepX 5 = some 58 := by
    apply firstOccFrom_eq_some (by decide) (by omega)
    · unfold c1Body
      rw [occAt_append_left (by omega)]
      decide
    · intro i hi1 hi2
      unfold c1Body
      rw [occAt_append_left (by omega)]
      exact hmin1 i hi2 hi1
  have hchunk2 : sliceList (c1Body payload) 5 58 = sliceList c1Pre 5 58 := by
    unfold c1Body
    exact sliceList_append_left (by omega)
  have hbreak2 : sliceList (c1Body payload) (58 + sepX.length)
      (58 + sepX.length + 2) ≠ dashdash := by
    unfold c1Body
    rw [sliceList_append_left (by rw [h130]; omega)]
    decide
  rw [parseLoop_step _ _ hf2 hbreak2,
    if_pos (by omega : (5 : Nat) > 0), hchunk2,
    show parseChunk (sliceList c1Pre 5 58) =
      some { name := str2bytes "weapon", filename := none,
             data := str2bytes "ar" } from by decide,
    show (58 + sepX.length + 2 : Nat) = 63 from rfl]
  -- iteration 3: delimiter at offset 132 + |payload|, emits the file part
  have hf3 : firstOccFrom (c1Body payload) sepX 63 =
      some (130 + (payload.length + 2)) := by
    apply firstOccFrom_eq_some (by decide) (by omega)
    · unfold c1Body
      rw [show (130 : Nat) + (payload.length + 2) =
        c1Pre.length + (payload.length + 2) from by omega,
        occAt_append_right]
      unfold OccAt
      rw [List.drop_append]
      decide
    · intro i hi1 hi2
      unfold c1Body
      by_cases hc1 : i + 3 ≤ 130
      · rw [occAt_append_left (by omega)]
        exact hmin2 i (by omega) (by omega)
      · intro hoc
        by_cases hc2 : i ≤ 129
        · have hb : (c1Pre ++ (payload ++ c1Suf))[i]? = c1Pre[i]? :=
            List.getElem?_append_left (by omega)
          have h128 : 128 ≤ i := by omega
          interval_cases i
          · exact not_occAt_of_byte (b := 13)
              (by rw [hb]; decide) (by decide)
              (Nat.le_refl _) (by omega) hoc
          · exact not_occAt_of_byte (b := 10)
              (by rw [hb]; decide) (by decide)
              (Nat.le_refl _) (by omega) hoc
        · by_cases hc3 : i + 3 ≤ 130 + payload.length
          · have hoc' : OccAt sepX (payload ++ c1Suf) (i - 130) := by
              rw [show i = c1Pre.length + (i - 130) from by omega,
                occAt_append_right] at hoc
              exact hoc
            rw [occAt_append_left (by omega)] at hoc'
            exact hp (isInfix_of_occAt hoc')
          · have hj13 : (c1Pre ++ (payload ++ c1Suf))[130 + payload.length]? =
                some 13 := by
              rw [List.getElem?_append_right (by omega)]
              rw [show 130 + payload.length - c1Pre.length =
                payload.length + 0 from by omega]
              rw [List.getElem?_append_right (by omega)]
              rw [show payload.length + 0 - payload.length = 0 from by omega]
              decide
            by_cases hc4 : i ≤ 130 + payload.length
            · exact not_occAt_of_byte hj13 (by decide)
                (by omega) (by omega) hoc
            · have hj10 : (c1Pre ++ (payload ++ c1Suf))[131 + payload.length]? =
                  some 10 := by
                rw [List.getElem?_append_right (by omega)]
                rw [show 131 + payload.length - c1Pre.length =
                  payload.length + 1 from by omega]
                rw [List.getElem?_append_right (by omega)]
                rw [show payload.length + 1 - payload.length = 1 from by omega]
                decide
              exact not_occAt_of_byte hj10 (by decide)
                (by omega) (by omega) hoc
  have hchunk3 : sliceList (c1Body payload) 63 (130 + (payload.length + 2)) =
      hdrFile ++ ([13, 10, 13, 10] ++ (payload ++ [13, 10])) := by
    unfold c1Body sliceList
    have htake : (c1Pre ++ (payload ++ c1Suf)).take (130 + (payload.length + 2)) =
        c1Pre ++ (payload ++ [13, 10]) := by
      rw [show (130 : Nat) + (payload.length + 2) =
        c1Pre.length + (payload.length + 2) from by omega]
      rw [List.take_append]
      congr 1
      rw [List.take_append_eq_append_take, List.take_of_length_le (by omega),
        show payload.length + 2 - payload.length = 2 from by omega,
        show c1Suf.take 2 = [13, 10] from by decide]
    rw [htake, List.drop_append_eq_append_drop,
      show List.drop 63 c1Pre = hdrFile ++ crlfcrlf from by decide,
      show 63 - c1Pre.length = 0 from by omega,
      List.drop_zero]
    simp [crlfcrlf]
  have hbreak3 : sliceList (c1Body payload)
      (130 + (payload.length + 2) + sepX.length)
      (130 + (payload.length + 2) + sepX.length + 2) = dashdash := by
    unfold c1Body
    rw [show c1Pre ++ (payload ++ c1Suf) = (c1Pre ++ payload) ++ c1Suf from
      (List.append_assoc ..).symm]
    rw [sliceList_suffix _ _ (by rw [List.length_append, h130]; omega)
      (by rw [List.length_append, h130]; omega)]
    rw [show 130 + (payload.length + 2) + sepX.length -
      (c1Pre ++ payload).length = 5 from by rw [List.length_append, h130]; omega]
    rw [show 130 + (payload.length + 2) + sepX.length + 2 -
      (c1Pre ++ payload).length = 7 from by rw [List.length_append, h130]; omega]
    decide
  rw [parseLoop_last _ _ hf3 hbreak3, if_pos (by omega : (63 : Nat) > 0),
    hchunk3, parseChunk_concat _ _ (by decide)]
  simp only [show regexFind nameNeedle hdrFile = some (str2bytes "file")
      from by decide,
    show regexFind fileNeedle hdrFile = some (str2bytes "tex.png")
      from by decide]
  simp

/-- Concrete instance of C1's hypothesis and conclusion: a payload that
resembles but never matches the delimiter passes through byte-exact. -/
theorem c1_multipart_fidelity_witness :
    ¬ sepX <:+: [45, 45, 89, 0, 255, 45, 88] ∧
    parseMultipart (c1Body [45, 45, 89, 0, 255, 45, 88]) boundaryX =
      [{ name := str2bytes "weapon", filename := none, data := str2bytes "ar" },
       { name := str2bytes "file", filename := some (str2bytes "tex.png"),
         data := [45, 45, 89, 0, 255, 45, 88] }] :=
  ⟨by decide, c1_multipart_fidelity [45, 45, 89, 0, 255, 45, 88] (by decide)⟩

/-! ## C8 / C9: best-effort decoding of malformed or attribute-free parts -/

/-- An occurrence of a nonempty needle fits inside the list. -/
theorem occAt_le_length {sep l : List Nat} {k : Nat} (hs : sep ≠ [])
    (h : OccAt sep l k) : k + sep.length ≤ l.length := by
  have hlen := h.length_le
  rw [List.length_drop] at hlen
  have hpos : 0 < sep.length := List.length_pos.mpr hs
  omega

/-- If the needle never occurs, the targeted header match fails. -/
theorem regexFind_eq_none {needle s : List Nat} (hne : ¬ needle <:+: s) :
    regexFind needle s = none := by
  induction s with
  | nil => rfl
  | cons c rest ih =>
    have hb : needle.isPrefixOf (c :: rest) = false := by
      rw [Bool.eq_false_iff]
      intro hc
      exact hne (List.isPrefixOf_iff_prefix.mp hc).isInfix
    rw [regexFind, hb]
    simp only [if_false, Bool.false_eq_true]
    exact ih (fun hc => hne (hc.trans (List.suffix_cons c rest).isInfix))

/-- The header-and-value tail of the C9 body, after the generic header
block: blank line, the value `val`, line terminator, closing delimiter
and end marker. -/
def c9Suf : List Nat :=
  crlfcrlf ++ str2bytes "val" ++ crlf ++ sepX ++ dashdash ++ crlf

/-- A single-part multipart body with boundary `X` whose header block is
the given byte list `H`. -/
def c9Body (H : List Nat) : List Nat := (sepX ++ crlf) ++ (H ++ c9Suf)

/-- **C9.** A part whose header block is located (here: any CR-free
header block, so the blank-line sequence after it is found) but contains
no `name="..."` attribute is still emitted, with empty field name and
`filename` absent, rather than being dropped. -/
theorem c9_part_without_name_attribute (H : List Nat)
    (h13 : (13 : Nat) ∉ H)
    (hsep : ¬ sepX <:+: H)
    (hname : ¬ nameNeedle <:+: H) :
    parseMultipart (c9Body H) boundaryX =
      [{ name := [], filename := none, data := str2bytes "val" }] := by
  unfold parseMultipart
  rw [show dashdash ++ boundaryX = sepX from rfl]
  have h3 : sepX.length = 3 := sepX_length
  have h16 : c9Suf.length = 16 := by decide
  have h5 : (sepX ++ crlf).length = 5 := by decide
  have hblen : (c9Body H).length = 21 + H.length := by
    unfold c9Body
    rw [List.length_append, h5, List.length_append, h16]
    omega
  -- iteration 1: delimiter at 0
  have hf1 : firstOccFrom (c9Body H) sepX 0 = some 0 := by
    apply firstOccFrom_eq_some (by decide) (Nat.le_refl 0)
    · apply occAt_zero
      unfold c9Body
      exact (show sepX <+: sepX ++ crlf by decide).trans (List.prefix_append _ _)
    · intro i h1 h2
      omega
  have hbreak1 : sliceList (c9Body H) (0 + sepX.length)
      (0 + sepX.length + 2) ≠ dashdash := by
    unfold c9Body
    rw [show (sepX ++ crlf) ++ (H ++ c9Suf) =
      (sepX ++ crlf) ++ (H ++ c9Suf) from rfl,
      sliceList_append_left (by rw [h3]; decide)]
    decide
  rw [show (c9Body H).length + 1 = (((c9Body H).length - 1) + 1) + 1 by omega]
  rw [parseLoop_step _ _ hf1 hbreak1,
    if_neg (by omega : ¬ (0 : Nat) > 0),
    show (0 + sepX.length + 2 : Nat) = 5 from rfl]
  -- iteration 2: delimiter right after the value, part emitted, end marker
  have hshift : ∀ k, OccAt sepX (c9Body H) (5 + k) ↔ OccAt sepX (H ++ c9Suf) k := by
    intro k
    unfold c9Body
    rw [show (5 : Nat) + k = (sepX ++ crlf).length + k from by rw [h5],
      occAt_append_right]
  have hc9occ : ∀ m < 9, ¬ OccAt sepX c9Suf m := by decide
  have hf2 : firstOccFrom (c9Body H) sepX 5 = some (5 + (H.length + 9)) := by
    apply firstOccFrom_eq_some (by decide) (by omega)
    · rw [hshift]
      rw [show H.length + 9 = H.length + 9 from rfl]
      have : OccAt sepX c9Suf 9 := by decide
      rw [show H.length + 9 = H.length + 9 from rfl]
      unfold OccAt at this ⊢
      rw [List.drop_append_eq_append_drop,
        List.drop_eq_nil_of_le (by omega),
        show H.length + 9 - H.length = 9 from by omega,
        List.nil_append]
      exact this
    · intro i hi1 hi2
      have hk : i = 5 + (i - 5) := by omega
      rw [hk, hshift]
      intro hoc
      have hwin := occAt_le_length (by decide) hoc
      rw [List.length_append, h3, h16] at hwin
      set k := i - 5 with hkdef
      by_cases hc1 : k + 3 ≤ H.length
      · rw [occAt_append_left (by omega)] at hoc
        exact hsep (isInfix_of_occAt hoc)
      · by_cases hc2 : k < H.length
        · -- window straddles into the CRLF after H
          have hj : (H ++ c9Suf)[H.length]? = some 13 := by
            rw [List.getElem?_append_right (Nat.le_refl _),
              Nat.sub_self]
            decide
          exact not_occAt_of_byte hj (by decide) (by omega) (by omega) hoc
        · -- window inside the concrete suffix
          have hk2 : k = H.length + (k - H.length) := by omega
          rw [hk2, occAt_append_right] at hoc
          exact hc9occ (k - H.length) (by omega) hoc
  have hchunk2 : sliceList (c9Body H) 5 (5 + (H.length + 9)) =
      H ++ ([13, 10, 13, 10] ++ (str2bytes "val" ++ [13, 10])) := by
    unfold c9Body
    rw [show H ++ c9Suf =
      (H ++ ([13, 10, 13, 10] ++ (str2bytes "val" ++ [13, 10]))) ++
        (sepX ++ dashdash ++ crlf) from by simp [c9Suf, crlfcrlf, crlf]]
    have h9len : (([13, 10, 13, 10] ++ (str2bytes "val" ++ [13, 10])) :
        List Nat).length = 9 := by decide
    rw [show (5 : Nat) = (sepX ++ crlf).length from h5.symm]
    rw [show (sepX ++ crlf).length + (H.length + 9) =
      (sepX ++ crlf).length +
        (H ++ ([13, 10, 13, 10] ++ (str2bytes "val" ++ [13, 10]))).length from by
      rw [List.length_append H, h9len]]
    exact sliceList_middle _ _ _
  have hbreak2 : sliceList (c9Body H) (5 + (H.length + 9) + sepX.length)
      (5 + (H.length + 9) + sepX.length + 2) = dashdash := by
    unfold c9Body
    rw [show (sepX ++ crlf) ++ (H ++ c9Suf) =
      ((sepX ++ crlf) ++ H) ++ c9Suf from by simp]
    rw [sliceList_suffix _ _
      (by rw [List.length_append, h5]; omega) (by rw [List.length_append, h5]; omega)]
    rw [show 5 + (H.length + 9) + sepX.length - ((sepX ++ crlf) ++ H).length = 12
        from by rw [List.length_append, h5, h3]; omega,
      show 5 + (H.length + 9) + sepX.length + 2 - ((sepX ++ crlf) ++ H).length = 14
        from by rw [List.length_append, h5, h3]; omega]
    decide
  rw [parseLoop_last _ _ hf2 hbreak2, if_pos (by omega : (5 : Nat) > 0),
    hchunk2, parseChunk_concat _ _ h13,
    regexFind_eq_none hname,
    regexFind_eq_none (fun hc => hname ((show nameNeedle <:+: fileNeedle by decide).trans hc))]
  simp

/-- Everything following the malformed span in the C8 body: its trailing
line terminator, a delimiter, a well-formed `weapon=ar` part, and the
closing delimiter with end marker. -/
def c8Suf : List Nat :=
  crlf ++ sepX ++ crlf ++ hdrWeapon ++ crlfcrlf ++ str2bytes "ar" ++ crlf ++
  sepX ++ dashdash ++ crlf

/-- A multipart body with boundary `X` holding first a span `M` in which
no blank-line sequence occurs, then a well-formed `weapon=ar` part. -/
def c8Body (M : List Nat) : List Nat := (sepX ++ crlf) ++ (M ++ c8Suf)

/-- **C8.** A part span in which no header/body separator (blank-line
sequence) can be located is silently dropped: decoding still succeeds
and returns the remaining well-formed parts. -/
theorem c8_malformed_part_dropped (M : List Nat)
    (h13 : (13 : Nat) ∉ M)
    (hsep : ¬ sepX <:+: M) :
    parseMultipart (c8Body M) boundaryX =
      [{ name := str2bytes "weapon", filename := none,
         data := str2bytes "ar" }] := by
  unfold parseMultipart
  rw [show dashdash ++ boundaryX = sepX from rfl]
  have h3 : sepX.length = 3 := sepX_length
  have h67 : c8Suf.length = 67 := by decide
  have h5 : (sepX ++ crlf).length = 5 := by decide
  have hblen : (c8Body M).length = 72 + M.length := by
    unfold c8Body
    rw [List.length_append, h5, List.length_append, h67]
    omega
  -- iteration 1: delimiter at 0
  have hf1 : firstOccFrom (c8Body M) sepX 0 = some 0 := by
    apply firstOccFrom_eq_some (by decide) (Nat.le_refl 0)
    · apply occAt_zero
      unfold c8Body
      exact (show sepX <+: sepX ++ crlf by decide).trans (List.prefix_append _ _)
    · intro i h1 h2
      omega
  have hbreak1 : sliceList (c8Body M) (0 + sepX.length)
      (0 + sepX.length + 2) ≠ dashdash := by
    unfold c8Body
    rw [sliceList_append_left (by decide)]
    decide
  rw [show (c8Body M).length + 1 = (((c8Body M).length - 2) + 1) + 1 + 1 by omega]
  rw [parseLoop_step _ _ hf1 hbreak1,
    if_neg (by omega : ¬ (0 : Nat) > 0),
    show (0 + sepX.length + 2 : Nat) = 5 from rfl]
  have hshift : ∀ k, OccAt sepX (c8Body M) (5 + k) ↔ OccAt sepX (M ++ c8Suf) k := by
    intro k
    unfold c8Body
    rw [show (5 : Nat) + k = (sepX ++ crlf).length + k from by rw [h5],
      occAt_append_right]
  have hsufocc : ∀ m < 60, 7 ≤ m → ¬ OccAt sepX c8Suf m := by decide
  have hsufocc2 : ∀ m < 2, ¬ OccAt sepX c8Suf m := by decide
  have hsufshift : ∀ m, OccAt sepX (M ++ c8Suf) (M.length + m) ↔ OccAt sepX c8Suf m :=
    fun m => occAt_append_right
  -- iteration 2: delimiter just after the malformed span; part dropped
  have hf2 : firstOccFrom (c8Body M) sepX 5 = some (5 + (M.length + 2)) := by
    apply firstOccFrom_eq_some (by decide) (by omega)
    · rw [hshift, hsufshift]
      decide
    · intro i hi1 hi2
      have hk : i = 5 + (i - 5) := by omega
      rw [hk, hshift]
      intro hoc
      set k := i - 5 with hkdef
      by_cases hc1 : k + 3 ≤ M.length
      · rw [occAt_append_left (by omega)] at hoc
        exact hsep (isInfix_of_occAt hoc)
      · by_cases hc2 : k < M.length
        · have hj : (M ++ c8Suf)[M.length]? = some 13 := by
            rw [List.getElem?_append_right (Nat.le_refl _), Nat.sub_self]
            decide
          exact not_occAt_of_byte hj (by decide) (by omega) (by omega) hoc
        · have hk2 : k = M.length + (k - M.length) := by omega
          rw [hk2, hsufshift] at hoc
          exact hsufocc2 (k - M.length) (by omega) hoc
  have hchunk2 : sliceList (c8Body M) 5 (5 + (M.length + 2)) = M ++ [13, 10] := by
    unfold c8Body
    rw [show M ++ c8Suf = (M ++ [13, 10]) ++
      (sepX ++ crlf ++ hdrWeapon ++ crlfcrlf ++ str2bytes "ar" ++ crlf ++
        sepX ++ dashdash ++ crlf) from by simp [c8Suf, crlf]]
    rw [show (5 : Nat) = (sepX ++ crlf).length from h5.symm]
    rw [show (sepX ++ crlf).length + (M.length + 2) =
      (sepX ++ crlf).length + (M ++ [13, 10]).length from by
      rw [List.length_append M]; rfl]
    exact sliceList_middle _ _ _
  have hpc2 : parseChunk (M ++ [13, 10]) = none := by
    unfold parseChunk
    rw [firstOccFrom_eq_none]
    intro i _ hoc
    have hwin := occAt_le_length (by decide) hoc
    rw [List.length_append, show ([13, 10] : List Nat).length = 2 from rfl,
      show crlfcrlf.length = 4 from rfl] at hwin
    have hb := occAt_byte_eq (show OccAt (13 :: [10, 13, 10]) _ i from hoc)
    rw [List.getElem?_append_left (by omega)] at hb
    exact h13 (List.getElem?_mem hb)
  have hbreak2 : sliceList (c8Body M) (5 + (M.length + 2) + sepX.length)
      (5 + (M.length + 2) + sepX.length + 2) ≠ dashdash := by
    unfold c8Body
    rw [show (sepX ++ crlf) ++ (M ++ c8Suf) =
      ((sepX ++ crlf) ++ M) ++ c8Suf from by simp]
    rw [sliceList_suffix _ _
      (by rw [List.length_append, h5]; omega) (by rw [List.length_append, h5]; omega)]
    rw [show 5 + (M.length + 2) + sepX.length - ((sepX ++ crlf) ++ M).length = 5
        from by rw [List.length_append, h5, h3]; omega,
      show 5 + (M.length + 2) + sepX.length + 2 - ((sepX ++ crlf) ++ M).length = 7
        from by rw [List.length_append, h5, h3]; omega]
    decide
  rw [parseLoop_step _ _ hf2 hbreak2, if_pos (by omega : (5 : Nat) > 0),
    hchunk2, hpc2]
  -- iteration 3: the well-formed `weapon=ar` part, then the end marker
  have hf3 : firstOccFrom (c8Body M) sepX (5 + (M.length + 2) + sepX.length + 2) =
      some (5 + (M.length + 60)) := by
    apply firstOccFrom_eq_some (by decide) (by omega)
    · rw [hshift, hsufshift]
      decide
    · intro i hi1 hi2
      have hk : i = 5 + (M.length + (i - 5 - M.length)) := by omega
      rw [hk, hshift, hsufshift]
      exact hsufocc (i - 5 - M.length) (by omega) (by omega)
  have hchunk3 : sliceList (c8Body M) (5 + (M.length + 2) + sepX.length + 2)
      (5 + (M.length + 60)) = sliceList c8Suf 7 60 := by
    unfold c8Body
    rw [show (sepX ++ crlf) ++ (M ++ c8Suf) =
      ((sepX ++ crlf) ++ M) ++ c8Suf from by simp]
    rw [sliceList_suffix _ _
      (by rw [List.length_append, h5, h3]; omega)
      (by rw [List.length_append, h5]; omega)]
    rw [show 5 + (M.length + 2) + sepX.length + 2 - ((sepX ++ crlf) ++ M).length = 7
        from by rw [List.length_append, h5, h3]; omega,
      show 5 + (M.length + 60) - ((sepX ++ crlf) ++ M).length = 60
        from by rw [List.length_append, h5]; omega]
  have hbreak3 : sliceList (c8Body M) (5 + (M.length + 60) + sepX.length)
      (5 + (M.length + 60) + sepX.length + 2) = dashdash := by
    unfold c8Body
    rw [show (sepX ++ crlf) ++ (M ++ c8Suf) =
      ((sepX ++ crlf) ++ M) ++ c8Suf from by simp]
    rw [sliceList_suffix _ _
      (by rw [List.length_append, h5]; omega) (by rw [List.length_append, h5]; omega)]
    rw [show 5 + (M.length + 60) + sepX.length - ((sepX ++ crlf) ++ M).length = 63
        from by rw [List.length_append, h5, h3]; omega,
      show 5 + (M.length + 60) + sepX.length + 2 - ((sepX ++ crlf) ++ M).length = 65
        from by rw [List.length_append, h5, h3]; omega]
    decide
  rw [parseLoop_last _ _ hf3 hbreak3, if_pos (by omega)]
  rw [hchunk3]
  rw [show parseChunk (sliceList c8Suf 7 60) =
    some { name := str2bytes "weapon", filename := none,
           data := str2bytes "ar" } from by decide]
  simp

/-- Concrete instance of C9's hypotheses and conclusion. -/
theorem c9_part_without_name_attribute_witness :
    ((13 : Nat) ∉ str2bytes "Content-Disposition: form-data" ∧
      ¬ sepX <:+: str2bytes "Content-Disposition: form-data" ∧
      ¬ nameNeedle <:+: str2bytes "Content-Disposition: form-data") ∧
    parseMultipart (c9Body (str2bytes "Content-Disposition: form-data"))
        boundaryX =
      [{ name := [], filename := none, data := str2bytes "val" }] :=
  ⟨⟨by decide, by decide, by decide⟩,
    c9_part_without_name_attribute (str2bytes "Content-Disposition: form-data")
      (by decide) (by decide) (by decide)⟩

/-- Concrete instance of C8's hypotheses and conclusion. -/
theorem c8_malformed_part_dropped_witness :
    ((13 : Nat) ∉ str2bytes "junk--Y no blank line here" ∧
      ¬ sepX <:+: str2bytes "junk--Y no blank line here") ∧
    parseMultipart (c8Body (str2bytes "junk--Y no blank line here")) boundaryX =
      [{ name := str2bytes "weapon", filename := none,
         data := str2bytes "ar" }] :=
  ⟨⟨by decide, by decide⟩,
    c8_malformed_part_dropped (str2bytes "junk--Y no blank line here")
      (by decide) (by decide)⟩

/-! ## Path model: POSIX `path.join`, `basename`, `extname`, `dirname` -/

/-- Split a character list on a separator character, keeping empty
segments (the behaviour of `String.prototype.split('/')`). -/
def splitOnChar (c : Char) : List Char → List (List Char)
  | [] => [[]]
  | x :: xs =>
    let r := splitOnChar c xs
    if x = c then [] :: r
    else
      match r with
      | h :: t => (x :: h) :: t
      | [] => [[x]]

/-- `s.split('/')` as strings. -/
def jsSplitSlash (s : String) : List String :=
  (splitOnChar '/' s.data).map (fun cs => String.mk cs)

/-- One step of POSIX normalization over an absolute path's segments:
empty and `.` segments vanish, `..` pops the last segment (or nothing at
the root), anything else is appended. -/
def normStep (acc : List String) (seg : String) : List String :=
  if seg = "" ∨ seg = "." then acc
  else if seg = ".." then acc.dropLast
  else acc ++ [seg]

/-- `path.join(<rendered base>, rel)` as normalized segments, for an
already-normalized absolute `base`.  Joining in several steps equals
joining the concatenation because `foldl` composes. -/
def joinSegs (base : List String) (rel : String) : List String :=
  (jsSplitSlash rel).foldl normStep base

/-- Render a segment list with `/` separators. -/
def renderSegs : List String → String
  | [] => ""
  | [s] => s
  | s :: rest => s ++ "/" ++ renderSegs rest

/-- The string Node produces for a normalized absolute segment list. -/
def renderAbs (l : List String) : String := "/" ++ renderSegs l

/-- `String.prototype.startsWith` on code points. -/
def jsStartsWith (s p : String) : Bool := p.data.isPrefixOf s.data

/-- `String.prototype.endsWith` on code points. -/
def jsEndsWith (s p : String) : Bool := p.data.isSuffixOf s.data

/-- `toLowerCase` (ASCII fragment, `Char.toLower` on each character). -/
def jsToLower (s : String) : String := String.mk (s.data.map Char.toLower)

/-- `toUpperCase` (ASCII fragment). -/
def jsToUpper (s : String) : String := String.mk (s.data.map Char.toUpper)

/-- ASCII whitespace trimmed by `String.prototype.trim`. -/
def isJsSpace (c : Char) : Bool :=
  c = ' ' ∨ c = '\t' ∨ c = '\n' ∨ c = '\r' ∨ c.toNat = 11 ∨ c.toNat = 12

/-- `String.prototype.trim` (ASCII fragment). -/
def jsTrim (s : String) : String :=
  String.mk (((s.data.dropWhile isJsSpace).reverse.dropWhile isJsSpace).reverse)

/-- `path.posix.basename(p)`: drop trailing slashes, then keep what
follows the last remaining slash. -/
def jsBasename (p : String) : String :=
  let r := p.data.reverse.dropWhile (· = '/')
  String.mk ((r.takeWhile (· ≠ '/')).reverse)

/-- `path.posix.extname(p)`: the final `.`-suffix of the basename, with
Node's edge cases (no dot, leading dot only, `..`). -/
def jsExtname (p : String) : String :=
  let b := jsBasename p
  let r := b.data.reverse
  let run := r.takeWhile (· ≠ '.')
  if run.length = r.length then ""
  else if run.length + 1 = r.length then ""
  else if b = ".." then ""
  else String.mk ('.' :: run.reverse)

/-- `path.posix.basename(p, ext)`: the basename with the suffix `ext`
stripped when it is a proper suffix. -/
def jsBasenameExt (p ext : String) : String :=
  let b := jsBasename p
  if jsEndsWith b ext ∧ b.data.length > ext.data.length then
    String.mk (b.data.take (b.data.length - ext.data.length))
  else b

/-- `path.posix.dirname(p)` for the relative paths this program passes
to it. -/
def jsDirname (p : String) : String :=
  let r := p.data.reverse.dropWhile (· = '/')
  let rest := (r.dropWhile (· ≠ '/')).dropWhile (· = '/')
  if rest = [] then
    if p.data.head? = some '/' then "/" else "."
  else String.mk rest.reverse

/-- `__dirname` of the store manager, modelled as a fixed absolute
path. -/
def ROOTsegs : List String := ["srv", "haze-client-assets"]

/-- The rendered string of `ROOTsegs`, the value of the `ROOT`
constant. -/
def ROOTstr : String := "/srv/haze-client-assets"

/-! ## Filesystem model and scanning configuration -/

/-- A flat filesystem: normalized absolute paths (segment lists) mapped
to file byte sizes. -/
structure FS where
  files : List (List String × Nat)
deriving DecidableEq

/-- `fs.existsSync`: the path is a file, or a directory some file lives
under. -/
def existsSegs (fs : FS) (p : List String) : Bool :=
  fs.files.any (fun kv => p.isPrefixOf kv.1)

/-- `fs.writeFileSync`: insert or overwrite. -/
def writeFile (fs : FS) (p : List String) (size : Nat) : FS :=
  ⟨(p, size) :: fs.files.filter (fun kv => kv.1 != p)⟩

/-- `fs.unlinkSync`. -/
def removeFile (fs : FS) (p : List String) : FS :=
  ⟨fs.files.filter (fun kv => kv.1 != p)⟩

/-- The name of `p` when it is a direct child of `dir`. -/
def childName (dir : List String) (p : List String) : Option String :=
  if p.dropLast = dir then p.getLast? else none

/-- `fs.readdirSync dir` (file entries). -/
def childNames (fs : FS) (dir : List String) : List String :=
  fs.files.filterMap (fun kv => childName dir kv.1)

/-- Skin category folders, in `Object.entries` order. -/
def SKIN_FOLDERS : List (String × String) :=
  [("ar", "AR"), ("awp", "AWP"), ("shotgun", "Shotgun"), ("smg", "SMG")]

/-- Model category folders, in `Object.entries` order. -/
def MODEL_FOLDERS : List (String × String) :=
  [("ar", "Models/AR"), ("awp", "Models/AWP"),
   ("smg", "Models/SMG"), ("shotgun", "Models/Shotgun")]

/-- Allowed image extensions. -/
def IMAGE_EXTS : List String := [".png", ".jpg", ".jpeg", ".webp"]

/-- Allowed model extensions. -/
def MODEL_EXTS : List String := [".glb"]

/-- The preview folder. -/
def PREVIEW_FOLDER : String := "Previews"

/-- The special-assets folder. -/
def SPECIAL_FOLDER : String := "Special"

/-! ## FolderScanner -/

/-- One entry produced by `scanFolder`. -/
structure ScanEntry where
  file : String
  name : String
  size : Nat
deriving DecidableEq

/-- `scanFolder(folderRelative, extensions)`: list the folder, filter by
lower-cased extension, and record category-relative path, base name and
byte size. -/
def scanFolder (fs : FS) (folderRelative : String) (extensions : List String) :
    List ScanEntry :=
  let abs := joinSegs ROOTsegs folderRelative
  if existsSegs fs abs then
    ((childNames fs abs).filter
        (fun f => extensions.contains (jsToLower (jsExtname f)))).map
      (fun f =>
        { file := folderRelative ++ "/" ++ f
          name := jsBasenameExt f (jsExtname f)
          size := (fs.files.lookup (abs ++ [f])).getD 0 })
  else []

/-- One manifest asset. -/
structure Asset where
  id : String
  type : String
  weapon : Option String
  name : String
  description : String
  file : String
  texture : Option String
  preview : Option String
  size : Nat
  required : Bool
deriving DecidableEq

/-- The skin assets of one weapon folder. -/
def skinAssets (fs : FS) (weapon folder : String) : List Asset :=
  (scanFolder fs folder IMAGE_EXTS).map (fun f =>
    let previewFile :=
      PREVIEW_FOLDER ++ "/skin-" ++ weapon ++ "-" ++ jsToLower f.name ++ ".webp"
    let hasPreview := existsSegs fs (joinSegs ROOTsegs previewFile)
    { id := "skin-" ++ weapon ++ "-" ++ jsToLower f.name
      type := "skin"
      weapon := some weapon
      name := f.name ++ " " ++ jsToUpper weapon
      description := f.name ++ "-themed " ++ jsToUpper weapon ++ " skin"
      file := f.file
      texture := none
      preview := some (if hasPreview then previewFile else f.file)
      size := f.size
      required := false })

/-- The special assets. -/
def specialAssets (fs : FS) : List Asset :=
  (scanFolder fs SPECIAL_FOLDER IMAGE_EXTS).map (fun f =>
    let previewFile := PREVIEW_FOLDER ++ "/special-" ++ jsToLower f.name ++ ".webp"
    let hasPreview := existsSegs fs (joinSegs ROOTsegs previewFile)
    { id := "special-" ++ jsToLower f.name
      type := "special"
      weapon := none
      name := f.name
      description := f.name ++ " special skin for all weapons"
      file := f.file
      texture := none
      preview := some (if hasPreview then previewFile else f.file)
      size := f.size
      required := false })

/-- The model assets of one weapon folder, with companion texture and
preview resolution. -/
def modelAssets (fs : FS) (weapon folder : String) : List Asset :=
  (scanFolder fs folder MODEL_EXTS).map (fun f =>
    let folderAbs := joinSegs ROOTsegs folder
    let texture := (IMAGE_EXTS.find? (fun ext =>
        existsSegs fs (joinSegs folderAbs (f.name ++ "_tex" ++ ext)))).map
      (fun ext => folder ++ "/" ++ f.name ++ "_tex" ++ ext)
    let previewFile :=
      PREVIEW_FOLDER ++ "/model-" ++ weapon ++ "-" ++ jsToLower f.name ++ ".webp"
    let hasPreview := existsSegs fs (joinSegs ROOTsegs previewFile)
    let legacyPreview :=
      if hasPreview then none
      else (IMAGE_EXTS.find? (fun ext =>
          existsSegs fs (joinSegs folderAbs (f.name ++ ext)))).map
        (fun ext => folder ++ "/" ++ f.name ++ ext)
    { id := "model-" ++ weapon ++ "-" ++ jsToLower f.name
      type := "model"
      weapon := some weapon
      name := f.name
      description := "Custom " ++ f.name ++ " weapon model"
      file := f.file
      texture := texture
      preview := if hasPreview then some previewFile else legacyPreview
      size := f.size
      required := false })

/-- `scanAll()`: skins, then special, then models, in configuration
order. -/
def scanAll (fs : FS) : List Asset :=
  skinAssets fs "ar" "AR" ++ skinAssets fs "awp" "AWP" ++
  skinAssets fs "shotgun" "Shotgun" ++ skinAssets fs "smg" "SMG" ++
  specialAssets fs ++
  modelAssets fs "ar" "Models/AR" ++ modelAssets fs "awp" "Models/AWP" ++
  modelAssets fs "smg" "Models/SMG" ++ modelAssets fs "shotgun" "Models/Shotgun"

/-! ## ManifestStore -/

/-- The persisted manifest.  `extra` stands for any top-level JSON
fields the store manager never touches; JSON round-tripping is modelled
as the identity on this record. -/
structure Manifest where
  version : Nat
  updated : String
  previewBaseUrl : String
  assets : List Asset
  extra : List (String × String)
deriving DecidableEq

/-- The default filled into an empty `previewBaseUrl`. -/
def DEFAULT_PREVIEW_BASE_URL : String :=
  "https://raw.githubusercontent.com/iydebu/haze-client-assets/main/"

/-- The server's mutable state: the asset tree and the manifest file
(`none` when absent or undecodable). -/
structure ServerState where
  fs : FS
  manifestFile : Option Manifest
deriving DecidableEq

/-- `readManifest()`: parse the file or fall back to the default. -/
def readManifest (st : ServerState) (now : String) : Manifest :=
  st.manifestFile.getD
    { version := 3, updated := now, previewBaseUrl := "", assets := [], extra := [] }

/-- `regenerateManifestFile()`: scan, read, stamp, fill the base URL if
empty, replace the assets wholesale, persist. -/
def regenerateManifestFile (st : ServerState) (now : String) :
    ServerState × List Asset :=
  let items := scanAll st.fs
  let m := readManifest st now
  let m2 :=
    { m with
      version := 3
      updated := now
      previewBaseUrl :=
        if m.previewBaseUrl = "" then DEFAULT_PREVIEW_BASE_URL
        else m.previewBaseUrl
      assets := items }
  ({ st with manifestFile := some m2 }, items)

/-! ## Request handlers -/

/-- Decode part bytes to a string (ASCII fragment of `toString`). -/
def bytesToStr (l : List Nat) : String := String.mk (l.map Char.ofNat)

/-- JS truthiness of the `filename` field in `p.name === '…' &&
p.filename`. -/
def truthyFilename (p : Part) : Bool :=
  match p.filename with
  | none => false
  | some f => f != []

/-- A handler's HTTP reply. -/
structure Response where
  status : Nat
  ok : Bool
  error : Option String
deriving DecidableEq

/-- Handler result: new state, reply, and the absolute paths passed to
`fs.writeFileSync`, in order (first the primary file when present). -/
structure HandlerOut where
  st : ServerState
  resp : Response
  writes : List (List String)
deriving DecidableEq

/-- `POST /api/upload-skin`, after multipart decoding. -/
def handleUploadSkin (st : ServerState) (parts : List Part) (now : String) :
    HandlerOut :=
  let weaponPart := parts.find? (fun p => p.name == str2bytes "weapon")
  let filePart := parts.find? (fun p =>
    p.name == str2bytes "file" && truthyFilename p)
  let previewPart := parts.find? (fun p => p.name == str2bytes "preview")
  match weaponPart, filePart with
  | some wp, some fp =>
    let weapon := jsTrim (bytesToStr wp.data)
    match SKIN_FOLDERS.lookup weapon with
    | none =>
      { st := st, resp := ⟨400, false, some ("Invalid weapon: " ++ weapon)⟩,
        writes := [] }
    | some skinFolder =>
      let fname := bytesToStr (fp.filename.getD [])
      let skinName := jsBasenameExt fname (jsExtname fname)
      let destPath := joinSegs ROOTsegs (skinFolder ++ "/" ++ fname)
      let fs1 := writeFile st.fs destPath fp.data.length
      let previewWrite :=
        match previewPart with
        | some pp =>
          if pp.data.length > 0 then
            some (joinSegs ROOTsegs (PREVIEW_FOLDER ++ "/skin-" ++ weapon ++
              "-" ++ jsToLower skinName ++ ".webp"), pp.data.length)
          else none
        | none => none
      let fs2 :=
        match previewWrite with
        | some ps => writeFile fs1 ps.1 ps.2
        | none => fs1
      let st2 := (regenerateManifestFile { st with fs := fs2 } now).1
      { st := st2, resp := ⟨200, true, none⟩,
        writes := [destPath] ++
          (match previewWrite with | some ps => [ps.1] | none => []) }
  | _, _ =>
    { st := st, resp := ⟨400, false, some "Missing weapon or file"⟩,
      writes := [] }

/-- `POST /api/upload-model`, after multipart decoding. -/
def handleUploadModel (st : ServerState) (parts : List Part) (now : String) :
    HandlerOut :=
  let weaponPart := parts.find? (fun p => p.name == str2bytes "weapon")
  let modelPart := parts.find? (fun p =>
    p.name == str2bytes "model" && truthyFilename p)
  let texturePart := parts.find? (fun p =>
    p.name == str2bytes "texture" && truthyFilename p)
  let previewPart := parts.find? (fun p => p.name == str2bytes "preview")
  match weaponPart, modelPart with
  | some wp, some mp =>
    let weapon := jsTrim (bytesToStr wp.data)
    match MODEL_FOLDERS.lookup weapon with
    | none =>
      { st := st, resp := ⟨400, false, some ("Invalid weapon: " ++ weapon)⟩,
        writes := [] }
    | some modelFolder =>
      let mfname := bytesToStr (mp.filename.getD [])
      let modelName := jsBasenameExt mfname (jsExtname mfname)
      let modelPath := joinSegs ROOTsegs (modelFolder ++ "/" ++ mfname)
      let fs1 := writeFile st.fs modelPath mp.data.length
      let texWrite :=
        match texturePart with
        | some tp =>
          let texExt := jsExtname (bytesToStr (tp.filename.getD []))
          some (joinSegs ROOTsegs (modelFolder ++ "/" ++ modelName ++ "_tex" ++
            texExt), tp.data.length)
        | none => none
      let fs2 :=
        match texWrite with
        | some ts => writeFile fs1 ts.1 ts.2
        | none => fs1
      let previewWrite :=
        match previewPart with
        | some pp =>
          if pp.data.length > 0 then
            some (joinSegs ROOTsegs (PREVIEW_FOLDER ++ "/model-" ++ weapon ++
              "-" ++ jsToLower modelName ++ ".webp"), pp.data.length)
          else none
        | none => none
      let fs3 :=
        match previewWrite with
        | some ps => writeFile fs2 ps.1 ps.2
        | none => fs2
      let st2 := (regenerateManifestFile { st with fs := fs3 } now).1
      { st := st2, resp := ⟨200, true, none⟩,
        writes := [modelPath] ++
          (match texWrite with | some ts => [ts.1] | none => []) ++
          (match previewWrite with | some ps => [ps.1] | none => []) }
  | _, _ =>
    { st := st, resp := ⟨400, false, some "Missing weapon or model file"⟩,
      writes := [] }

/-- `POST /api/upload-special`, after multipart decoding. -/
def handleUploadSpecial (st : ServerState) (parts : List Part) (now : String) :
    HandlerOut :=
  let filePart := parts.find? (fun p =>
    p.name == str2bytes "file" && truthyFilename p)
  let previewPart := parts.find? (fun p => p.name == str2bytes "preview")
  match filePart with
  | some fp =>
    let fname := bytesToStr (fp.filename.getD [])
    let specialName := jsBasenameExt fname (jsExtname fname)
    let destPath := joinSegs ROOTsegs (SPECIAL_FOLDER ++ "/" ++ fname)
    let fs1 := writeFile st.fs destPath fp.data.length
    let previewWrite :=
      match previewPart with
      | some pp =>
        if pp.data.length > 0 then
          some (joinSegs ROOTsegs (PREVIEW_FOLDER ++ "/special-" ++
            jsToLower specialName ++ ".webp"), pp.data.length)
        else none
      | none => none
    let fs2 :=
      match previewWrite with
      | some ps => writeFile fs1 ps.1 ps.2
      | none => fs1
    let st2 := (regenerateManifestFile { st with fs := fs2 } now).1
    { st := st2, resp := ⟨200, true, none⟩,
      writes := [destPath] ++
        (match previewWrite with | some ps => [ps.1] | none => []) }
  | none =>
    { st := st, resp := ⟨400, false, some "Missing file"⟩, writes := [] }

/-- `POST /api/save-preview`, after multipart decoding. -/
def handleSavePreview (st : ServerState) (parts : List Part) (now : String) :
    HandlerOut :=
  let typePart := parts.find? (fun p => p.name == str2bytes "type")
  let weaponPart := parts.find? (fun p => p.name == str2bytes "weapon")
  let namePart := parts.find? (fun p => p.name == str2bytes "name")
  let previewPart := parts.find? (fun p => p.name == str2bytes "preview")
  match typePart, namePart, previewPart with
  | some tp, some np, some pp =>
    let assetType := jsTrim (bytesToStr tp.data)
    let weapon :=
      match weaponPart with
      | some w => jsTrim (bytesToStr w.data)
      | none => ""
    let name := jsTrim (bytesToStr np.data)
    if assetType = "skin" then
      let previewName := "skin-" ++ weapon ++ "-" ++ name ++ ".webp"
      let p := joinSegs ROOTsegs (PREVIEW_FOLDER ++ "/" ++ previewName)
      let fs1 := writeFile st.fs p pp.data.length
      let st2 := (regenerateManifestFile { st with fs := fs1 } now).1
      { st := st2, resp := ⟨200, true, none⟩, writes := [p] }
    else if assetType = "model" then
      let previewName := "model-" ++ weapon ++ "-" ++ name ++ ".webp"
      let p := joinSegs ROOTsegs (PREVIEW_FOLDER ++ "/" ++ previewName)
      let fs1 := writeFile st.fs p pp.data.length
      let st2 := (regenerateManifestFile { st with fs := fs1 } now).1
      { st := st2, resp := ⟨200, true, none⟩, writes := [p] }
    else
      { st := st, resp := ⟨400, false, some ("Invalid type: " ++ assetType)⟩,
        writes := [] }
  | _, _, _ =>
    { st := st, resp := ⟨400, false, some "Missing type, name, or preview"⟩,
      writes := [] }

/-- `DELETE /api/asset?file=…`: sandbox check, existence check, cascade
delete of companion textures and preview, primary delete,
regeneration. -/
def handleDelete (st : ServerState) (fileQ : Option String) (now : String) :
    HandlerOut :=
  match fileQ with
  | none => { st := st, resp := ⟨400, false, some "No file specified"⟩, writes := [] }
  | some file =>
    if file = "" then
      { st := st, resp := ⟨400, false, some "No file specified"⟩, writes := [] }
    else
      let absSegs := joinSegs ROOTsegs file
      if ¬ jsStartsWith (renderAbs absSegs) ROOTstr then
        { st := st, resp := ⟨403, false, some "Invalid path"⟩, writes := [] }
      else if ¬ existsSegs st.fs absSegs then
        { st := st, resp := ⟨404, false, some "File not found"⟩, writes := [] }
      else
        let ext := jsToLower (jsExtname file)
        let baseName := jsBasenameExt file (jsExtname file)
        let dirName := jsDirname file
        let fs1 :=
          if ext = ".glb" then
            IMAGE_EXTS.foldl (fun acc texExt =>
              let texPath :=
                joinSegs ROOTsegs (dirName ++ "/" ++ baseName ++ "_tex" ++ texExt)
              if existsSegs acc texPath then removeFile acc texPath else acc)
              st.fs
          else st.fs
        let previewName : Option String :=
          if jsStartsWith file "Models/" then
            let pieces := jsSplitSlash file
            if pieces.length ≥ 3 then
              some ("model-" ++ jsToLower (pieces.getD 1 "") ++ "-" ++
                jsToLower baseName ++ ".webp")
            else none
          else if jsStartsWith file (SPECIAL_FOLDER ++ "/") then
            some ("special-" ++ jsToLower baseName ++ ".webp")
          else
            (SKIN_FOLDERS.find? (fun wf => jsStartsWith file (wf.2 ++ "/"))).map
              (fun wf => "skin-" ++ wf.1 ++ "-" ++ jsToLower baseName ++ ".webp")
        let fs2 :=
          match previewName with
          | some pn =>
            let pPath := joinSegs ROOTsegs (PREVIEW_FOLDER ++ "/" ++ pn)
            if existsSegs fs1 pPath then removeFile fs1 pPath else fs1
          | none => fs1
        let fs3 := removeFile fs2 absSegs
        let st2 := (regenerateManifestFile { st with fs := fs3 } now).1
        { st := st2, resp := ⟨200, true, none⟩, writes := [] }

/-- `GET /file/<relPath>`: sandbox-checked read-only serving.  `none`
is the 404 reply; `some (p, size)` serves the file at `p`. -/
def handleFileServe (st : ServerState) (relPath : String) :
    Option (List String × Nat) :=
  let absSegs := joinSegs ROOTsegs relPath
  if ¬ jsStartsWith (renderAbs absSegs) ROOTstr ∨ ¬ existsSegs st.fs absSegs then
    none
  else
    some (absSegs, (st.fs.files.lookup absSegs).getD 0)

/-! ## C6: idempotent regeneration, sticky `previewBaseUrl` -/

/-- **C6.** With no filesystem change between two regenerations, the two
asset lists are equal (hence equal as sets); the persisted
`previewBaseUrl` after a run is the old value when that was non-empty
and the default only when it was empty; a non-empty value survives both
runs unchanged. -/
theorem c6_idempotent_regeneration (st : ServerState) (now1 now2 : String) :
    (regenerateManifestFile (regenerateManifestFile st now1).1 now2).2 =
      (regenerateManifestFile st now1).2 ∧
    (readManifest (regenerateManifestFile st now1).1 now1).previewBaseUrl =
      (if (readManifest st now1).previewBaseUrl = ""
       then DEFAULT_PREVIEW_BASE_URL
       else (readManifest st now1).previewBaseUrl) ∧
    ((readManifest st now1).previewBaseUrl ≠ "" →
      (readManifest (regenerateManifestFile st now1).1 now1).previewBaseUrl =
        (readManifest st now1).previewBaseUrl ∧
      (readManifest
          (regenerateManifestFile (regenerateManifestFile st now1).1 now2).1
          now2).previewBaseUrl =
        (readManifest st now1).previewBaseUrl) := by
  refine ⟨rfl, rfl, fun h => ⟨?_, ?_⟩⟩
  · simp only [readManifest] at h
    simp [regenerateManifestFile, readManifest, h]
  · simp only [readManifest] at h
    simp [regenerateManifestFile, readManifest, h]

/-- Concrete instance of C6's hypothesis and conclusion. -/
theorem c6_idempotent_regeneration_witness :
    (readManifest ⟨⟨[]⟩, some ⟨3, "t0", "http://u/", [], []⟩⟩ "t1").previewBaseUrl ≠ "" ∧
    ((regenerateManifestFile
        (regenerateManifestFile ⟨⟨[]⟩, some ⟨3, "t0", "http://u/", [], []⟩⟩ "t1").1
        "t2").2 =
      (regenerateManifestFile ⟨⟨[]⟩, some ⟨3, "t0", "http://u/", [], []⟩⟩ "t1").2 ∧
    (readManifest
        (regenerateManifestFile ⟨⟨[]⟩, some ⟨3, "t0", "http://u/", [], []⟩⟩ "t1").1
        "t1").previewBaseUrl =
      (if (readManifest ⟨⟨[]⟩, some ⟨3, "t0", "http://u/", [], []⟩⟩ "t1").previewBaseUrl = ""
       then DEFAULT_PREVIEW_BASE_URL
       else (readManifest ⟨⟨[]⟩, some ⟨3, "t0", "http://u/", [], []⟩⟩ "t1").previewBaseUrl) ∧
    ((readManifest ⟨⟨[]⟩, some ⟨3, "t0", "http://u/", [], []⟩⟩ "t1").previewBaseUrl ≠ "" →
      (readManifest
          (regenerateManifestFile ⟨⟨[]⟩, some ⟨3, "t0", "http://u/", [], []⟩⟩ "t1").1
          "t1").previewBaseUrl =
        (readManifest ⟨⟨[]⟩, some ⟨3, "t0", "http://u/", [], []⟩⟩ "t1").previewBaseUrl ∧
      (readManifest
          (regenerateManifestFile
            (regenerateManifestFile ⟨⟨[]⟩, some ⟨3, "t0", "http://u/", [], []⟩⟩ "t1").1
            "t2").1
          "t2").previewBaseUrl =
        (readManifest ⟨⟨[]⟩, some ⟨3, "t0", "http://u/", [], []⟩⟩ "t1").previewBaseUrl)) :=
  ⟨by decide, c6_idempotent_regeneration ⟨⟨[]⟩, some ⟨3, "t0", "http://u/", [], []⟩⟩ "t1" "t2"⟩

/-! ## C10: regeneration is a read-modify-write of the manifest -/

/-- **C10.** Regeneration carries every top-level field other than
`version`, `updated`, `previewBaseUrl` and `assets` over unchanged from
the previously persisted manifest. -/
theorem c10_regeneration_preserves_extra_fields (st : ServerState)
    (now : String) (m : Manifest) (h : st.manifestFile = some m) :
    (regenerateManifestFile st now).1.manifestFile =
      some { version := 3
             updated := now
             previewBaseUrl :=
               if m.previewBaseUrl = "" then DEFAULT_PREVIEW_BASE_URL
               else m.previewBaseUrl
             assets := scanAll st.fs
             extra := m.extra } := by
  simp [regenerateManifestFile, readManifest, h]

/-- Concrete instance of C10's hypothesis and conclusion. -/
theorem c10_regeneration_preserves_extra_fields_witness :
    (⟨⟨[]⟩, some ⟨7, "t0", "", [], [("custom", "kept")]⟩⟩ : ServerState).manifestFile =
      some ⟨7, "t0", "", [], [("custom", "kept")]⟩ ∧
    (regenerateManifestFile ⟨⟨[]⟩, some ⟨7, "t0", "", [], [("custom", "kept")]⟩⟩
        "t1").1.manifestFile =
      some { version := 3
             updated := "t1"
             previewBaseUrl :=
               if ("" : String) = "" then DEFAULT_PREVIEW_BASE_URL else ""
             assets := scanAll (⟨[]⟩ : FS)
             extra := [("custom", "kept")] } :=
  ⟨rfl, c10_regeneration_preserves_extra_fields _ "t1" _ rfl⟩

/-! ## C2: sandbox enforcement is a string-prefix check -/

/-- **C2 (amended).** Whenever the resolved absolute path of a delete or
file-serve request fails the string-prefix check against the sandbox
root, the request is rejected (403 / not-found) with no state change and
no file served, regardless of whether the path exists.  (The check is
only a string prefix: see `c2_counterexample` for an escaping path that
passes it.) -/
theorem c2_sandbox_rejection (st : ServerState) (file : String) (now : String)
    (hne : file ≠ "")
    (hfail : jsStartsWith (renderAbs (joinSegs ROOTsegs file)) ROOTstr = false) :
    handleDelete st (some file) now =
      { st := st, resp := ⟨403, false, some "Invalid path"⟩, writes := [] } ∧
    handleFileServe st file = none := by
  constructor
  · unfold handleDelete
    dsimp only
    rw [if_neg hne, if_pos (by simp [hfail])]
  · unfold handleFileServe
    dsimp only
    rw [if_pos (Or.inl (by simp [hfail]))]

/-- Concrete instance of C2's hypotheses and conclusion: a traversal
path `../../etc/passwd` is rejected by both handlers. -/
theorem c2_sandbox_rejection_witness :
    ("../../etc/passwd" : String) ≠ "" ∧
    jsStartsWith (renderAbs (joinSegs ROOTsegs "../../etc/passwd")) ROOTstr = false ∧
    (handleDelete ⟨⟨[(["etc", "passwd"], 1)]⟩, none⟩ (some "../../etc/passwd") "t" =
      { st := ⟨⟨[(["etc", "passwd"], 1)]⟩, none⟩,
        resp := ⟨403, false, some "Invalid path"⟩, writes := [] } ∧
    handleFileServe ⟨⟨[(["etc", "passwd"], 1)]⟩, none⟩ "../../etc/passwd" = none) :=
  ⟨by decide, by decide,
    c2_sandbox_rejection ⟨⟨[(["etc", "passwd"], 1)]⟩, none⟩ "../../etc/passwd" "t"
      (by decide) (by decide)⟩

/-- **C2 (counterexample).** The claim as stated is false: a delete
request for `../haze-client-assets2/pwn.png` resolves to
`/srv/haze-client-assets2/pwn.png`, which is *outside* the sandbox root
`/srv/haze-client-assets` (the root is not a segment-wise prefix), yet
the request is *not* rejected: the string-prefix check passes, the file
outside the root is deleted, and the handler reports success. -/
theorem c2_counterexample :
    ROOTsegs.isPrefixOf
        (joinSegs ROOTsegs "../haze-client-assets2/pwn.png") = false ∧
    (⟨⟨[(["srv", "haze-client-assets2", "pwn.png"], 3)]⟩, none⟩ :
        ServerState).fs.files.lookup ["srv", "haze-client-assets2", "pwn.png"] =
      some 3 ∧
    (handleDelete ⟨⟨[(["srv", "haze-client-assets2", "pwn.png"], 3)]⟩, none⟩
        (some "../haze-client-assets2/pwn.png") "t").resp.ok = true ∧
    (handleDelete ⟨⟨[(["srv", "haze-client-assets2", "pwn.png"], 3)]⟩, none⟩
        (some "../haze-client-assets2/pwn.png") "t").st.fs.files.lookup
      ["srv", "haze-client-assets2", "pwn.png"] = none := by
  decide

/-! ## C7: save-preview type validation -/

/-- The weapon string a save-preview request carries (empty when the
field is absent). -/
def savePreviewWeapon (parts : List Part) : String :=
  match parts.find? (fun p => p.name == str2bytes "weapon") with
  | some w => jsTrim (bytesToStr w.data)
  | none => ""

/-- The absolute path save-preview writes for a `skin` request. -/
def savePreviewTargetSkin (parts : List Part) (name : String) : List String :=
  joinSegs ROOTsegs (PREVIEW_FOLDER ++ "/" ++
    ("skin-" ++ savePreviewWeapon parts ++ "-" ++ name ++ ".webp"))

/-- The absolute path save-preview writes for a `model` request. -/
def savePreviewTargetModel (parts : List Part) (name : String) : List String :=
  joinSegs ROOTsegs (PREVIEW_FOLDER ++ "/" ++
    ("model-" ++ savePreviewWeapon parts ++ "-" ++ name ++ ".webp"))

/-- **C7 (amended).** A save-preview request carrying `type`, `name` and
`preview` fields writes exactly the preview file
`Previews/<type>-<weapon>-<name>.webp` and succeeds when the trimmed
type is `skin` or `model`; every other type value — *including the asset
type `special`* — yields the `Invalid type` validation error with no
filesystem mutation. -/
theorem c7_save_preview_type_validation (st : ServerState) (parts : List Part)
    (now : String) (tp np pp : Part)
    (htp : parts.find? (fun p => p.name == str2bytes "type") = some tp)
    (hnp : parts.find? (fun p => p.name == str2bytes "name") = some np)
    (hpp : parts.find? (fun p => p.name == str2bytes "preview") = some pp) :
    (jsTrim (bytesToStr tp.data) = "skin" →
      handleSavePreview st parts now =
        { st := (regenerateManifestFile
            { st with fs := (writeFile st.fs
                (savePreviewTargetSkin parts (jsTrim (bytesToStr np.data)))
                pp.data.length) } now).1
          resp := ⟨200, true, none⟩
          writes := [savePreviewTargetSkin parts (jsTrim (bytesToStr np.data))] }) ∧
    (jsTrim (bytesToStr tp.data) = "model" →
      handleSavePreview st parts now =
        { st := (regenerateManifestFile
            { st with fs := (writeFile st.fs
                (savePreviewTargetModel parts (jsTrim (bytesToStr np.data)))
                pp.data.length) } now).1
          resp := ⟨200, true, none⟩
          writes := [savePreviewTargetModel parts (jsTrim (bytesToStr np.data))] }) ∧
    (jsTrim (bytesToStr tp.data) ≠ "skin" →
      jsTrim (bytesToStr tp.data) ≠ "model" →
      handleSavePreview st parts now =
        { st := st
          resp := ⟨400, false,
            some ("Invalid type: " ++ jsTrim (bytesToStr tp.data))⟩
          writes := [] }) := by
  unfold handleSavePreview savePreviewTargetSkin savePreviewTargetModel
    savePreviewWeapon
  rw [htp, hnp, hpp]
  refine ⟨fun h => ?_, fun h => ?_, fun h1 h2 => ?_⟩
  · dsimp only
    rw [if_pos h]
  · dsimp only
    rw [if_neg (fun hc => absurd (hc.symm.trans h) (by decide)), if_pos h]
  · dsimp only
    rw [if_neg h1, if_neg h2]

/-- The parts of the C7 witness request. -/
def c7WitnessParts : List Part :=
  [⟨str2bytes "type", none, str2bytes "skin"⟩,
   ⟨str2bytes "weapon", none, str2bytes "ar"⟩,
   ⟨str2bytes "name", none, str2bytes "flame"⟩,
   ⟨str2bytes "preview", some (str2bytes "p.webp"), [1, 2]⟩]

/-- Concrete instance of C7's hypotheses and the `skin` branch. -/
theorem c7_save_preview_type_validation_witness :
    c7WitnessParts.find? (fun p => p.name == str2bytes "type") =
      some ⟨str2bytes "type", none, str2bytes "skin"⟩ ∧
    jsTrim (bytesToStr (str2bytes "skin")) = "skin" ∧
    (handleSavePreview ⟨⟨[]⟩, none⟩ c7WitnessParts "t").writes =
      [["srv", "haze-client-assets", "Previews", "skin-ar-flame.webp"]] ∧
    (handleSavePreview ⟨⟨[]⟩, none⟩ c7WitnessParts "t").resp.ok = true := by
  have happ := (c7_save_preview_type_validation ⟨⟨[]⟩, none⟩ c7WitnessParts "t"
    ⟨str2bytes "type", none, str2bytes "skin"⟩
    ⟨str2bytes "name", none, str2bytes "flame"⟩
    ⟨str2bytes "preview", some (str2bytes "p.webp"), [1, 2]⟩
    (by decide) (by decide) (by decide)).1 (by decide)
  refine ⟨by decide, by decide, ?_, ?_⟩
  · rw [happ]
    decide
  · rw [happ]

/-- **C7 (counterexample).** The claim as stated is false: `special` is
one of the three asset types, yet a save-preview request with
`type=special` is answered with the `Invalid type` validation error and
writes nothing. -/
theorem c7_counterexample :
    handleSavePreview ⟨⟨[]⟩, none⟩
        [⟨str2bytes "type", none, str2bytes "special"⟩,
         ⟨str2bytes "name", none, str2bytes "glow"⟩,
         ⟨str2bytes "preview", some (str2bytes "p.webp"), [1, 2]⟩] "t" =
      { st := ⟨⟨[]⟩, none⟩
        resp := ⟨400, false, some "Invalid type: special"⟩
        writes := [] } := by
  decide

/-! ## Path lemmas -/

theorem strMk_data (s : String) : String.mk s.data = s := rfl

theorem splitOnChar_no_sep {c : Char} {l : List Char} (h : c ∉ l) :
    splitOnChar c l = [l] := by
  induction l with
  | nil => rfl
  | cons x xs ih =>
    have hx : ¬ x = c := fun hc => h (hc ▸ List.mem_cons_self x xs)
    have hxs : c ∉ xs := fun hc => h (List.mem_cons_of_mem x hc)
    rw [splitOnChar]
    simp only [if_neg hx, ih hxs]

theorem splitOnChar_sep_cons {c : Char} {a b : List Char} (ha : c ∉ a) :
    splitOnChar c (a ++ c :: b) = a :: splitOnChar c b := by
  induction a with
  | nil =>
    rw [List.nil_append, splitOnChar]
    simp
  | cons x xs ih =>
    have hx : ¬ x = c := fun hc => ha (hc ▸ List.mem_cons_self x xs)
    have hxs : c ∉ xs := fun hc => ha (List.mem_cons_of_mem x hc)
    rw [List.cons_append, splitOnChar]
    simp only [if_neg hx, ih hxs]

theorem jsSplitSlash_pair {x y : String}
    (hx : '/' ∉ x.data) (hy : '/' ∉ y.data) :
    jsSplitSlash (x ++ "/" ++ y) = [x, y] := by
  unfold jsSplitSlash
  have hd : (x ++ "/" ++ y).data = x.data ++ '/' :: y.data := by
    simp
  rw [hd, splitOnChar_sep_cons hx, splitOnChar_no_sep hy]
  simp [strMk_data]

theorem jsSplitSlash_triple {x1 x2 y : String}
    (h1 : '/' ∉ x1.data) (h2 : '/' ∉ x2.data) (hy : '/' ∉ y.data) :
    jsSplitSlash (x1 ++ "/" ++ (x2 ++ "/" ++ y)) = [x1, x2, y] := by
  unfold jsSplitSlash
  have hd : (x1 ++ "/" ++ (x2 ++ "/" ++ y)).data =
      x1.data ++ '/' :: (x2.data ++ '/' :: y.data) := by
    simp
  rw [hd, splitOnChar_sep_cons h1, splitOnChar_sep_cons h2,
    splitOnChar_no_sep hy]
  simp [strMk_data]

theorem jsSplitSlash_single {x : String} (hx : '/' ∉ x.data) :
    jsSplitSlash x = [x] := by
  unfold jsSplitSlash
  rw [splitOnChar_no_sep hx]
  simp [strMk_data]

/-- A plain path segment: nonempty, not a dot directory, slash-free. -/
def goodSeg (s : String) : Prop :=
  s ≠ "" ∧ s ≠ "." ∧ s ≠ ".." ∧ '/' ∉ s.data

instance (s : String) : Decidable (goodSeg s) :=
  inferInstanceAs (Decidable (_ ∧ _ ∧ _ ∧ _))

/-- Slash-free strings of length at least 3 are plain segments. -/
theorem goodSeg_of {s : String} (h : '/' ∉ s.data) (hlen : 3 ≤ s.data.length) :
    goodSeg s := by
  refine ⟨?_, ?_, ?_, h⟩
  · intro hc; subst hc; simp at hlen
  · intro hc; subst hc; simp at hlen
  · intro hc; subst hc; simp at hlen

theorem normStep_good {acc : List String} {s : String} (h : goodSeg s) :
    normStep acc s = acc ++ [s] := by
  obtain ⟨h1, h2, h3, _⟩ := h
  unfold normStep
  rw [if_neg (by simp [h1, h2]), if_neg h3]

theorem foldl_normStep_good {segs : List String}
    (h : ∀ s ∈ segs, goodSeg s) :
    ∀ acc, segs.foldl normStep acc = acc ++ segs := by
  induction segs with
  | nil => intro acc; simp
  | cons s rest ih =>
    intro acc
    rw [List.foldl_cons, normStep_good (h s (List.mem_cons_self s rest)),
      ih (fun t ht => h t (List.mem_cons_of_mem s ht))]
    simp

theorem joinSegs_pair {base : List String} {x y : String}
    (hx : goodSeg x) (hy : goodSeg y) :
    joinSegs base (x ++ "/" ++ y) = base ++ [x, y] := by
  unfold joinSegs
  rw [jsSplitSlash_pair hx.2.2.2 hy.2.2.2]
  exact foldl_normStep_good (by
    intro s hs
    simp only [List.mem_cons, List.not_mem_nil, or_false] at hs
    rcases hs with hs | hs
    · exact hs ▸ hx
    · exact hs ▸ hy) base

theorem joinSegs_triple {base : List String} {x1 x2 y : String}
    (h1 : goodSeg x1) (h2 : goodSeg x2) (hy : goodSeg y) :
    joinSegs base (x1 ++ "/" ++ (x2 ++ "/" ++ y)) = base ++ [x1, x2, y] := by
  unfold joinSegs
  rw [jsSplitSlash_triple h1.2.2.2 h2.2.2.2 hy.2.2.2]
  exact foldl_normStep_good (by
    intro s hs
    simp only [List.mem_cons, List.not_mem_nil, or_false] at hs
    rcases hs with hs | hs | hs
    · exact hs ▸ h1
    · exact hs ▸ h2
    · exact hs ▸ hy) base

theorem joinSegs_single {base : List String} {x : String} (hx : goodSeg x) :
    joinSegs base x = base ++ [x] := by
  unfold joinSegs
  rw [jsSplitSlash_single hx.2.2.2]
  exact foldl_normStep_good (by
    intro s hs
    simp only [List.mem_cons, List.not_mem_nil, or_false] at hs
    exact hs ▸ hx) base

/-- `Char.toLower` maps no character to `/`except `/` itself. -/
theorem toLower_ne_slash {c : Char} (h : c ≠ '/') : Char.toLower c ≠ '/' := by
  by_cases hc : c.toNat ≥ 65 ∧ c.toNat ≤ 90
  · have heq : Char.toLower c = Char.ofNat (c.toNat + 32) := by
      unfold Char.toLower
      simp [hc]
    rw [heq]
    have hb : ∀ m, m < 123 → 97 ≤ m → Char.ofNat m ≠ '/' := by decide
    exact hb (c.toNat + 32) (by omega) (by omega)
  · have heq : Char.toLower c = c := by
      unfold Char.toLower
      simp [hc]
    rw [heq]
    exact h

theorem jsToLower_no_slash {s : String} (h : '/' ∉ s.data) :
    '/' ∉ (jsToLower s).data := by
  unfold jsToLower
  rw [strMk_data]
  intro hc
  rcases List.mem_map.mp hc with ⟨c, hcm, heq⟩
  by_cases hcs : c = '/'
  · exact h (hcs ▸ hcm)
  · exact toLower_ne_slash hcs heq

theorem jsBasename_no_slash (p : String) : '/' ∉ (jsBasename p).data := by
  unfold jsBasename
  rw [strMk_data]
  intro hc
  rw [List.mem_reverse] at hc
  have := List.mem_takeWhile_imp hc
  simp at this

theorem jsBasenameExt_no_slash (p e : String) :
    '/' ∉ (jsBasenameExt p e).data := by
  unfold jsBasenameExt
  dsimp only
  split
  · rw [strMk_data]
    intro hc
    exact jsBasename_no_slash p ((List.take_sublist _ _).mem hc)
  · exact jsBasename_no_slash p

theorem jsExtname_no_slash (p : String) : '/' ∉ (jsExtname p).data := by
  unfold jsExtname
  dsimp only
  split
  · simp
  split
  · simp
  split
  · simp
  · rw [strMk_data]
    intro hc
    rcases List.mem_cons.mp hc with hc | hc
    · simp at hc
    · rw [List.mem_reverse] at hc
      have h2 : '/' ∈ (jsBasename p).data.reverse :=
        (List.takeWhile_sublist _).mem hc
      rw [List.mem_reverse] at h2
      exact jsBasename_no_slash p h2

/-! ## C5: which upload writes stay inside the sandbox -/

theorem strAppend_assoc (a b c : String) : a ++ b ++ c = a ++ (b ++ c) :=
  String.ext (by simp)

theorem no_slash_append {a b : String}
    (ha : '/' ∉ a.data) (hb : '/' ∉ b.data) : '/' ∉ (a ++ b).data := by
  simp only [String.data_append, List.mem_append]
  rintro (h | h)
  · exact ha h
  · exact hb h

theorem three_le_append_left {a : String} (b : String)
    (ha : 3 ≤ a.data.length) : 3 ≤ (a ++ b).data.length := by
  simp only [String.data_append, List.length_append]
  omega

theorem three_le_append_right (a : String) {b : String}
    (hb : 3 ≤ b.data.length) : 3 ≤ (a ++ b).data.length := by
  simp only [String.data_append, List.length_append]
  omega

theorem skinFolders_lookup_key {w sf : String}
    (h : SKIN_FOLDERS.lookup w = some sf) :
    w = "ar" ∨ w = "awp" ∨ w = "shotgun" ∨ w = "smg" := by
  by_cases h1 : w = "ar"
  · exact Or.inl h1
  by_cases h2 : w = "awp"
  · exact Or.inr (Or.inl h2)
  by_cases h3 : w = "shotgun"
  · exact Or.inr (Or.inr (Or.inl h3))
  by_cases h4 : w = "smg"
  · exact Or.inr (Or.inr (Or.inr h4))
  exfalso
  have e1 : (w == "ar") = false := beq_eq_false_iff_ne.mpr h1
  have e2 : (w == "awp") = false := beq_eq_false_iff_ne.mpr h2
  have e3 : (w == "shotgun") = false := beq_eq_false_iff_ne.mpr h3
  have e4 : (w == "smg") = false := beq_eq_false_iff_ne.mpr h4
  simp only [SKIN_FOLDERS, List.lookup, e1, e2, e3, e4] at h
  exact Option.noConfusion h

theorem modelFolders_lookup_key {w mf : String}
    (h : MODEL_FOLDERS.lookup w = some mf) :
    w = "ar" ∨ w = "awp" ∨ w = "smg" ∨ w = "shotgun" := by
  by_cases h1 : w = "ar"
  · exact Or.inl h1
  by_cases h2 : w = "awp"
  · exact Or.inr (Or.inl h2)
  by_cases h3 : w = "smg"
  · exact Or.inr (Or.inr (Or.inl h3))
  by_cases h4 : w = "shotgun"
  · exact Or.inr (Or.inr (Or.inr h4))
  exfalso
  have e1 : (w == "ar") = false := beq_eq_false_iff_ne.mpr h1
  have e2 : (w == "awp") = false := beq_eq_false_iff_ne.mpr h2
  have e3 : (w == "smg") = false := beq_eq_false_iff_ne.mpr h3
  have e4 : (w == "shotgun") = false := beq_eq_false_iff_ne.mpr h4
  simp only [List.lookup, MODEL_FOLDERS, e1, e2, e3, e4] at h
  exact Option.noConfusion h

theorem modelFolders_lookup_val {w mf : String}
    (h : MODEL_FOLDERS.lookup w = some mf) :
    mf = "Models/AR" ∨ mf = "Models/AWP" ∨ mf = "Models/SMG" ∨
      mf = "Models/Shotgun" := by
  rcases modelFolders_lookup_key h with hw | hw | hw | hw <;> subst hw
  · rw [show MODEL_FOLDERS.lookup "ar" = some "Models/AR" from rfl] at h
    exact Or.inl (Option.some.inj h).symm
  · rw [show MODEL_FOLDERS.lookup "awp" = some "Models/AWP" from rfl] at h
    exact Or.inr (Or.inl (Option.some.inj h).symm)
  · rw [show MODEL_FOLDERS.lookup "smg" = some "Models/SMG" from rfl] at h
    exact Or.inr (Or.inr (Or.inl (Option.some.inj h).symm))
  · rw [show MODEL_FOLDERS.lookup "shotgun" = some "Models/Shotgun" from rfl] at h
    exact Or.inr (Or.inr (Or.inr (Option.some.inj h).symm))

/-- A slash-free tail makes `Previews/<tail>` a two-segment path under
the base. -/
theorem joinSegs_previews_tail {base : List String} {y : String}
    (hy : '/' ∉ y.data) (hylen : 3 ≤ y.data.length) :
    joinSegs base (PREVIEW_FOLDER ++ "/" ++ y) = base ++ ["Previews", y] :=
  joinSegs_pair (by decide) (goodSeg_of hy hylen)

theorem skin_preview_write_inside (base : List String) (weapon n : String)
    (hw : '/' ∉ weapon.data) (hn : '/' ∉ n.data) :
    base <+:
      joinSegs base (PREVIEW_FOLDER ++ "/skin-" ++ weapon ++ "-" ++ n ++ ".webp") := by
  have hrw : PREVIEW_FOLDER ++ "/skin-" ++ weapon ++ "-" ++ n ++ ".webp" =
      PREVIEW_FOLDER ++ "/" ++ ("skin-" ++ (weapon ++ ("-" ++ (n ++ ".webp")))) :=
    String.ext (by
      simp [show ("/skin-" : String).data = '/' :: "skin-".data from rfl,
        show ("/" : String).data = ['/'] from rfl])
  rw [hrw, joinSegs_previews_tail
    (no_slash_append (by decide)
      (no_slash_append hw (no_slash_append (by decide)
        (no_slash_append hn (by decide)))))
    (three_le_append_left _ (by decide))]
  exact List.prefix_append _ _

theorem model_preview_write_inside (base : List String) (weapon n : String)
    (hw : '/' ∉ weapon.data) (hn : '/' ∉ n.data) :
    base <+:
      joinSegs base (PREVIEW_FOLDER ++ "/model-" ++ weapon ++ "-" ++ n ++ ".webp") := by
  have hrw : PREVIEW_FOLDER ++ "/model-" ++ weapon ++ "-" ++ n ++ ".webp" =
      PREVIEW_FOLDER ++ "/" ++ ("model-" ++ (weapon ++ ("-" ++ (n ++ ".webp")))) :=
    String.ext (by
      simp [show ("/model-" : String).data = '/' :: "model-".data from rfl,
        show ("/" : String).data = ['/'] from rfl])
  rw [hrw, joinSegs_previews_tail
    (no_slash_append (by decide)
      (no_slash_append hw (no_slash_append (by decide)
        (no_slash_append hn (by decide)))))
    (three_le_append_left _ (by decide))]
  exact List.prefix_append _ _

theorem special_preview_write_inside (base : List String) (n : String)
    (hn : '/' ∉ n.data) :
    base <+:
      joinSegs base (PREVIEW_FOLDER ++ "/special-" ++ n ++ ".webp") := by
  have hrw : PREVIEW_FOLDER ++ "/special-" ++ n ++ ".webp" =
      PREVIEW_FOLDER ++ "/" ++ ("special-" ++ (n ++ ".webp")) :=
    String.ext (by
      simp [show ("/special-" : String).data = '/' :: "special-".data from rfl,
        show ("/" : String).data = ['/'] from rfl])
  rw [hrw, joinSegs_previews_tail
    (no_slash_append (by decide) (no_slash_append hn (by decide)))
    (three_le_append_left _ (by decide))]
  exact List.prefix_append _ _

theorem texture_write_inside (base : List String) {mf : String}
    (modelName texExt : String)
    (hmf : mf = "Models/AR" ∨ mf = "Models/AWP" ∨ mf = "Models/SMG" ∨
      mf = "Models/Shotgun")
    (hmn : '/' ∉ modelName.data) (hte : '/' ∉ texExt.data) :
    base <+: joinSegs base (mf ++ "/" ++ modelName ++ "_tex" ++ texExt) := by
  have hy : goodSeg (modelName ++ ("_tex" ++ texExt)) :=
    goodSeg_of
      (no_slash_append hmn (no_slash_append (by decide) hte))
      (three_le_append_right _ (three_le_append_left _ (by decide)))
  rcases hmf with hmf | hmf | hmf | hmf <;> subst hmf
  · rw [show ("Models/AR" : String) ++ "/" ++ modelName ++ "_tex" ++ texExt =
        "Models" ++ "/" ++ ("AR" ++ "/" ++ (modelName ++ ("_tex" ++ texExt))) from
      String.ext (by
        simp [show ("Models/AR" : String).data =
            "Models".data ++ '/' :: "AR".data from rfl,
          show ("/" : String).data = ['/'] from rfl]),
      joinSegs_triple (by decide) (by decide) hy]
    exact List.prefix_append _ _
  · rw [show ("Models/AWP" : String) ++ "/" ++ modelName ++ "_tex" ++ texExt =
        "Models" ++ "/" ++ ("AWP" ++ "/" ++ (modelName ++ ("_tex" ++ texExt))) from
      String.ext (by
        simp [show ("Models/AWP" : String).data =
            "Models".data ++ '/' :: "AWP".data from rfl,
          show ("/" : String).data = ['/'] from rfl]),
      joinSegs_triple (by decide) (by decide) hy]
    exact List.prefix_append _ _
  · rw [show ("Models/SMG" : String) ++ "/" ++ modelName ++ "_tex" ++ texExt =
        "Models" ++ "/" ++ ("SMG" ++ "/" ++ (modelName ++ ("_tex" ++ texExt))) from
      String.ext (by
        simp [show ("Models/SMG" : String).data =
            "Models".data ++ '/' :: "SMG".data from rfl,
          show ("/" : String).data = ['/'] from rfl]),
      joinSegs_triple (by decide) (by decide) hy]
    exact List.prefix_append _ _
  · rw [show ("Models/Shotgun" : String) ++ "/" ++ modelName ++ "_tex" ++ texExt =
        "Models" ++ "/" ++ ("Shotgun" ++ "/" ++ (modelName ++ ("_tex" ++ texExt))) from
      String.ext (by
        simp [show ("Models/Shotgun" : String).data =
            "Models".data ++ '/' :: "Shotgun".data from rfl,
          show ("/" : String).data = ['/'] from rfl]),
      joinSegs_triple (by decide) (by decide) hy]
    exact List.prefix_append _ _

/-- **C5 (amended).** For every upload request (skin, model, special)
and arbitrary client-supplied multipart field values, every companion
path the handler writes beyond the primary file — the derived texture
and preview paths, i.e. everything after the first entry of the write
log — resolves inside the sandbox root.  (The primary file itself is
joined from the raw client filename and can escape: see
`c5_counterexample`.) -/
theorem c5_companion_writes_inside_root (st : ServerState) (parts : List Part)
    (now : String) :
    (∀ p ∈ (handleUploadSkin st parts now).writes.drop 1, ROOTsegs <+: p) ∧
    (∀ p ∈ (handleUploadModel st parts now).writes.drop 1, ROOTsegs <+: p) ∧
    (∀ p ∈ (handleUploadSpecial st parts now).writes.drop 1, ROOTsegs <+: p) := by
  refine ⟨?_, ?_, ?_⟩
  · unfold handleUploadSkin
    rcases hw : parts.find? (fun p => p.name == str2bytes "weapon") with _ | wp <;>
      rcases hfp : parts.find? (fun p =>
        p.name == str2bytes "file" && truthyFilename p) with _ | fp <;>
      (try rw [hw]) <;> (try rw [hfp]) <;> dsimp only
    · intro p hp; simp at hp
    · intro p hp; simp at hp
    · intro p hp; simp at hp
    · rcases hlk : SKIN_FOLDERS.lookup (jsTrim (bytesToStr wp.data)) with _ | sf <;>
        (try rw [hlk]) <;> dsimp only
      · intro p hp; simp at hp
      · have hwns : '/' ∉ (jsTrim (bytesToStr wp.data)).data := by
          rcases skinFolders_lookup_key hlk with h | h | h | h <;> rw [h] <;> decide
        rcases hpv : parts.find? (fun p => p.name == str2bytes "preview")
            with _ | pp <;> (try rw [hpv]) <;> dsimp only
        · intro p hp; simp at hp
        · by_cases hlen : 0 < pp.data.length
          · rw [if_pos hlen]
            dsimp only
            intro p hp
            simp only [List.singleton_append, List.cons_append, List.nil_append,
              List.append_nil, List.drop_succ_cons, List.drop_zero,
              List.mem_cons, List.not_mem_nil, or_false,
              List.mem_singleton] at hp
            subst hp
            exact skin_preview_write_inside ROOTsegs _ _ hwns
              (jsToLower_no_slash (jsBasenameExt_no_slash _ _))
          · rw [if_neg hlen]
            intro p hp; simp at hp
  · unfold handleUploadModel
    rcases hw : parts.find? (fun p => p.name == str2bytes "weapon") with _ | wp <;>
      rcases hmp : parts.find? (fun p =>
        p.name == str2bytes "model" && truthyFilename p) with _ | mp <;>
      (try rw [hw]) <;> (try rw [hmp]) <;> dsimp only
    · intro p hp; simp at hp
    · intro p hp; simp at hp
    · intro p hp; simp at hp
    · rcases hlk : MODEL_FOLDERS.lookup (jsTrim (bytesToStr wp.data)) with _ | mf <;>
        (try rw [hlk]) <;> dsimp only
      · intro p hp; simp at hp
      · have hwns : '/' ∉ (jsTrim (bytesToStr wp.data)).data := by
          rcases modelFolders_lookup_key hlk with h | h | h | h <;> rw [h] <;> decide
        have hval := modelFolders_lookup_val hlk
        have hmn : '/' ∉ (jsBasenameExt (bytesToStr (mp.filename.getD []))
            (jsExtname (bytesToStr (mp.filename.getD [])))).data :=
          jsBasenameExt_no_slash _ _
        rcases htp : parts.find? (fun p =>
            p.name == str2bytes "texture" && truthyFilename p) with _ | tp <;>
          rcases hpv : parts.find? (fun p => p.name == str2bytes "preview")
            with _ | pp <;> (try rw [htp]) <;> (try rw [hpv]) <;> dsimp only
        · intro p hp; simp at hp
        · by_cases hlen : 0 < pp.data.length
          · rw [if_pos hlen]
            dsimp only
            intro p hp
            simp only [List.singleton_append, List.cons_append, List.nil_append,
              List.append_nil, List.drop_succ_cons, List.drop_zero,
              List.mem_cons, List.not_mem_nil, or_false,
              List.mem_singleton] at hp
            subst hp
            exact model_preview_write_inside ROOTsegs _ _ hwns
              (jsToLower_no_slash hmn)
          · rw [if_neg hlen]
            intro p hp; simp at hp
        · intro p hp
          simp only [List.singleton_append, List.cons_append, List.nil_append,
            List.append_nil, List.drop_succ_cons, List.drop_zero,
            List.mem_cons, List.not_mem_nil, or_false,
            List.mem_singleton] at hp
          subst hp
          exact texture_write_inside ROOTsegs _ _ hval hmn (jsExtname_no_slash _)
        · by_cases hlen : 0 < pp.data.length
          · rw [if_pos hlen]
            dsimp only
            intro p hp
            simp only [List.singleton_append, List.cons_append, List.nil_append,
              List.append_nil, List.drop_succ_cons, List.drop_zero,
              List.mem_cons, List.not_mem_nil, or_false,
              List.mem_singleton] at hp
            rcases hp with hp | hp <;> subst hp
            · exact texture_write_inside ROOTsegs _ _ hval hmn
                (jsExtname_no_slash _)
            · exact model_preview_write_inside ROOTsegs _ _ hwns
                (jsToLower_no_slash hmn)
          · rw [if_neg hlen]
            dsimp only
            intro p hp
            simp only [List.singleton_append, List.cons_append, List.nil_append,
              List.append_nil, List.drop_succ_cons, List.drop_zero,
              List.mem_cons, List.not_mem_nil, or_false,
              List.mem_singleton] at hp
            subst hp
            exact texture_write_inside ROOTsegs _ _ hval hmn (jsExtname_no_slash _)
  · unfold handleUploadSpecial
    rcases hfp : parts.find? (fun p =>
        p.name == str2bytes "file" && truthyFilename p) with _ | fp <;>
      (try rw [hfp]) <;> dsimp only
    · intro p hp; simp at hp
    · rcases hpv : parts.find? (fun p => p.name == str2bytes "preview")
          with _ | pp <;> (try rw [hpv]) <;> dsimp only
      · intro p hp; simp at hp
      · by_cases hlen : 0 < pp.data.length
        · rw [if_pos hlen]
          dsimp only
          intro p hp
          simp only [List.singleton_append, List.cons_append, List.nil_append,
            List.append_nil, List.drop_succ_cons, List.drop_zero,
            List.mem_cons, List.not_mem_nil, or_false,
            List.mem_singleton] at hp
          subst hp
          exact special_preview_write_inside ROOTsegs _
            (jsToLower_no_slash (jsBasenameExt_no_slash _ _))
        · rw [if_neg hlen]
          intro p hp; simp at hp

/-- The parts of the C5 witness request: a well-behaved skin upload. -/
def c5WitnessParts : List Part :=
  [⟨str2bytes "weapon", none, str2bytes "ar"⟩,
   ⟨str2bytes "file", some (str2bytes "pic.png"), [1]⟩,
   ⟨str2bytes "preview", some (str2bytes "p.webp"), [2]⟩]

/-- Concrete instance of C5: the companion (preview) write of a skin
upload lands inside the root. -/
theorem c5_companion_writes_inside_root_witness :
    ["srv", "haze-client-assets", "Previews", "skin-ar-pic.webp"] ∈
      (handleUploadSkin ⟨⟨[]⟩, none⟩ c5WitnessParts "t").writes.drop 1 ∧
    ROOTsegs <+: ["srv", "haze-client-assets", "Previews", "skin-ar-pic.webp"] :=
  ⟨by decide,
    (c5_companion_writes_inside_root ⟨⟨[]⟩, none⟩ c5WitnessParts "t").1 _
      (by decide)⟩

/-! ## C4: cascade delete of a model and its companions -/

theorem isPrefixOf_append_self {α : Type} [BEq α] [LawfulBEq α] :
    ∀ (a b : List α), List.isPrefixOf a (a ++ b) = true
  | [], _ => by simp [List.isPrefixOf]
  | x :: t, b => by
    rw [List.cons_append]
    have h : List.isPrefixOf (x :: t) (x :: (t ++ b)) =
        (x == x && List.isPrefixOf t (t ++ b)) := by simp [List.isPrefixOf]
    rw [h, beq_self_eq_true, isPrefixOf_append_self t b, Bool.and_self]

theorem isPrefixOf_self {α : Type} [BEq α] [LawfulBEq α] (a : List α) :
    List.isPrefixOf a a = true := by
  have h := isPrefixOf_append_self a []
  rwa [List.append_nil] at h

theorem jsStartsWith_append (a b : String) : jsStartsWith (a ++ b) a = true := by
  unfold jsStartsWith
  rw [String.data_append]
  exact isPrefixOf_append_self _ _

theorem takeWhile_ne_append {c : Char} {as : List Char} (bs : List Char)
    (h : c ∉ as) : (as ++ c :: bs).takeWhile (· ≠ c) = as := by
  induction as with
  | nil => rw [List.nil_append, List.takeWhile_cons, if_neg (by simp)]
  | cons x t ih =>
    have hx : x ≠ c := fun hc => h (hc ▸ List.mem_cons_self x t)
    rw [List.cons_append, List.takeWhile_cons, if_pos (by simp [hx]),
      ih (fun hc => h (List.mem_cons_of_mem x hc))]

theorem dropWhile_ne_append {c : Char} {as : List Char} (bs : List Char)
    (h : c ∉ as) : (as ++ c :: bs).dropWhile (· ≠ c) = c :: bs := by
  induction as with
  | nil => rw [List.nil_append, List.dropWhile_cons, if_neg (by simp)]
  | cons x t ih =>
    have hx : x ≠ c := fun hc => h (hc ▸ List.mem_cons_self x t)
    rw [List.cons_append, List.dropWhile_cons, if_pos (by simp [hx]),
      ih (fun hc => h (List.mem_cons_of_mem x hc))]

theorem append_cons_inj {α : Type} {c : α} :
    ∀ {as as2 : List α} {bs bs2 : List α}, c ∉ as → c ∉ as2 →
      as ++ c :: bs = as2 ++ c :: bs2 → as = as2 ∧ bs = bs2 := by
  intro as
  induction as with
  | nil =>
    intro as2 bs bs2 _ h2 h
    cases as2 with
    | nil =>
      rw [List.nil_append, List.nil_append] at h
      exact ⟨rfl, (List.cons.inj h).2⟩
    | cons y s =>
      rw [List.nil_append, List.cons_append] at h
      have hcy : c = y := (List.cons.inj h).1
      subst hcy
      exact absurd (List.mem_cons_self c s) h2
  | cons x t ih =>
    intro as2 bs bs2 h1 h2 h
    cases as2 with
    | nil =>
      rw [List.cons_append, List.nil_append] at h
      have hcx : x = c := (List.cons.inj h).1
      subst hcx
      exact absurd (List.mem_cons_self x t) h1
    | cons y s =>
      rw [List.cons_append, List.cons_append] at h
      obtain ⟨he, hb⟩ := ih (fun hm => h1 (List.mem_cons_of_mem x hm))
        (fun hm => h2 (List.mem_cons_of_mem y hm)) (List.cons.inj h).2
      exact ⟨by rw [(List.cons.inj h).1, he], hb⟩

theorem append_left_cancel_str {a b c : String} (h : a ++ b = a ++ c) : b = c := by
  have h2 : a.data ++ b.data = a.data ++ c.data := by
    have h3 := congrArg String.data h
    simpa using h3
  exact String.ext (List.append_cancel_left h2)

/-- Splitting a path at its final slash is unambiguous when the tail is
slash-free. -/
theorem last_slash_decomp {u v f g : String}
    (hf : '/' ∉ f.data) (hg : '/' ∉ g.data)
    (h : u ++ "/" ++ f = v ++ "/" ++ g) : u = v ∧ f = g := by
  have hd : u.data ++ '/' :: f.data = v.data ++ '/' :: g.data := by
    have h2 := congrArg String.data h
    simp only [String.data_append] at h2
    simpa [show ("/" : String).data = ['/'] from rfl, List.append_assoc] using h2
  have hrev : f.data.reverse ++ '/' :: u.data.reverse =
      g.data.reverse ++ '/' :: v.data.reverse := by
    have h3 := congrArg List.reverse hd
    simpa [List.append_assoc] using h3
  have hf2 : '/' ∉ f.data.reverse := by simpa using hf
  have hg2 : '/' ∉ g.data.reverse := by simpa using hg
  obtain ⟨hfg, huv⟩ := append_cons_inj hf2 hg2 hrev
  exact ⟨String.ext (List.reverse_injective huv),
    String.ext (List.reverse_injective hfg)⟩

/-- The basename of a path whose final slash is followed by a nonempty
slash-free tail. -/
theorem jsBasename_last (u y : String) (hy : '/' ∉ y.data) (hyne : y.data ≠ []) :
    jsBasename (u ++ "/" ++ y) = y := by
  unfold jsBasename
  dsimp only
  have hd : (u ++ "/" ++ y).data = u.data ++ '/' :: y.data := by
    simp [show ("/" : String).data = ['/'] from rfl]
  rw [hd]
  have hrev : (u.data ++ '/' :: y.data).reverse =
      y.data.reverse ++ '/' :: u.data.reverse := by
    simp [List.append_assoc]
  rw [hrev]
  obtain ⟨a, t, hyd⟩ : ∃ a t, y.data.reverse = a :: t := by
    cases hc : y.data.reverse with
    | nil => exact absurd (by simpa using congrArg List.reverse hc) hyne
    | cons a t => exact ⟨a, t, rfl⟩
  have ha : a ≠ '/' := by
    intro hc
    subst hc
    have hmem : '/' ∈ y.data.reverse := by
      rw [hyd]; exact List.mem_cons_self _ _
    rw [List.mem_reverse] at hmem
    exact hy hmem
  rw [hyd, List.cons_append, List.dropWhile_cons, if_neg (by simp [ha]),
    ← List.cons_append, ← hyd,
    takeWhile_ne_append _ (by simpa using hy), List.reverse_reverse]

/-- The extension of a path whose basename is `<base>.glb` with `base`
nonempty. -/
theorem jsExtname_glb (p B : String) (hb : jsBasename p = B ++ ".glb")
    (hBne : B.data ≠ []) : jsExtname p = ".glb" := by
  unfold jsExtname
  dsimp only
  rw [hb]
  have hlen0 : 0 < B.data.length := List.length_pos.mpr hBne
  have hr : (B ++ ".glb").data.reverse =
      'b' :: 'l' :: 'g' :: '.' :: B.data.reverse := by
    simp [show (".glb" : String).data = ['.', 'g', 'l', 'b'] from rfl]
  rw [hr]
  have hrun : ('b' :: 'l' :: 'g' :: '.' :: B.data.reverse).takeWhile (· ≠ '.') =
      ['b', 'l', 'g'] := by
    rw [List.takeWhile_cons, if_pos (by simp), List.takeWhile_cons,
      if_pos (by simp), List.takeWhile_cons, if_pos (by simp),
      List.takeWhile_cons, if_neg (by simp)]
  rw [hrun]
  have hc1 : ¬ (['b', 'l', 'g'] : List Char).length =
      ('b' :: 'l' :: 'g' :: '.' :: B.data.reverse).length := by
    simp only [List.length_cons, List.length_reverse, List.length_nil]
    omega
  have hc2 : ¬ (['b', 'l', 'g'] : List Char).length + 1 =
      ('b' :: 'l' :: 'g' :: '.' :: B.data.reverse).length := by
    simp only [List.length_cons, List.length_reverse, List.length_nil]
    omega
  have hc3 : ¬ (B ++ ".glb" = "..") := by
    intro hc
    have h3 := congrArg List.length (congrArg String.data hc)
    simp [show (".glb" : String).data = ['.', 'g', 'l', 'b'] from rfl,
      show (".." : String).data = ['.', '.'] from rfl] at h3
  rw [if_neg hc1, if_neg hc2, if_neg hc3]
  decide

/-- `path.basename(p, ext)` strips a nonempty proper suffix from the
basename. -/
theorem jsBasenameExt_strip (p B e : String) (hb : jsBasename p = B ++ e)
    (hBne : B.data ≠ []) :
    jsBasenameExt p e = B := by
  unfold jsBasenameExt
  dsimp only
  rw [hb]
  have hsuf : jsEndsWith (B ++ e) e = true := by
    unfold jsEndsWith
    exact List.isSuffixOf_iff_suffix.mpr
      (by rw [String.data_append]; exact List.suffix_append _ _)
  have hgt : (B ++ e).data.length > e.data.length := by
    rw [String.data_append, List.length_append]
    have := List.length_pos.mpr hBne
    omega
  rw [if_pos ⟨hsuf, hgt⟩]
  have hlen : (B ++ e).data.length - e.data.length = B.data.length := by
    rw [String.data_append, List.length_append]
    omega
  rw [hlen, String.data_append, List.take_left]

/-- The dirname of a path whose final slash is followed by a nonempty
slash-free tail, when the head does not end in a slash. -/
theorem jsDirname_last (u y : String) (hy : '/' ∉ y.data) (hyne : y.data ≠ [])
    (a : Char) (t : List Char) (hu : u.data.reverse = a :: t) (ha : a ≠ '/') :
    jsDirname (u ++ "/" ++ y) = u := by
  unfold jsDirname
  dsimp only
  have hd : (u ++ "/" ++ y).data = u.data ++ '/' :: y.data := by
    simp [show ("/" : String).data = ['/'] from rfl]
  rw [hd]
  have hrev : (u.data ++ '/' :: y.data).reverse =
      y.data.reverse ++ '/' :: u.data.reverse := by
    simp [List.append_assoc]
  rw [hrev]
  obtain ⟨b, s, hyd⟩ : ∃ b s, y.data.reverse = b :: s := by
    cases hc : y.data.reverse with
    | nil => exact absurd (by simpa using congrArg List.reverse hc) hyne
    | cons b s => exact ⟨b, s, rfl⟩
  have hbne : b ≠ '/' := by
    intro hc
    subst hc
    have hmem : '/' ∈ y.data.reverse := by
      rw [hyd]; exact List.mem_cons_self _ _
    rw [List.mem_reverse] at hmem
    exact hy hmem
  have h1 : (y.data.reverse ++ '/' :: u.data.reverse).dropWhile (· = '/') =
      y.data.reverse ++ '/' :: u.data.reverse := by
    rw [hyd]
    simp only [List.cons_append]
    rw [List.dropWhile_cons, if_neg (by simp [hbne])]
  have h2 : (y.data.reverse ++ '/' :: u.data.reverse).dropWhile (· ≠ '/') =
      '/' :: u.data.reverse := dropWhile_ne_append _ (by simpa using hy)
  have h3 : ('/' :: u.data.reverse).dropWhile (· = '/') = a :: t := by
    rw [List.dropWhile_cons, if_pos (by simp), hu, List.dropWhile_cons,
      if_neg (by simp [ha])]
  rw [h1, h2, h3, if_neg (by simp), ← hu, List.reverse_reverse]

theorem renderSegs_cons_cons (a b : String) (t : List String) :
    renderSegs (a :: b :: t) = a ++ "/" ++ renderSegs (b :: t) := rfl

/-- Any path under the root passes the string-prefix sandbox check. -/
theorem startsWith_renderAbs (x : String) (l : List String) :
    jsStartsWith (renderAbs (ROOTsegs ++ x :: l)) ROOTstr = true := by
  unfold jsStartsWith
  have hd : (renderAbs (ROOTsegs ++ x :: l)).data =
      ROOTstr.data ++ ('/' :: (renderSegs (x :: l)).data) := by
    show ("/" ++ renderSegs ("srv" :: "haze-client-assets" :: x :: l)).data = _
    rw [renderSegs_cons_cons, renderSegs_cons_cons]
    simp [show ("/" : String).data = ['/'] from rfl,
      show ROOTstr.data =
        '/' :: ("srv".data ++ '/' :: "haze-client-assets".data) from rfl]
  rw [hd]
  exact isPrefixOf_append_self _ _

/-- A conditional unlink behaves like an unconditional one on the flat
store: removing an absent exact key is a no-op. -/
theorem condRemove_eq (fs : FS) (p : List String) :
    (if existsSegs fs p then removeFile fs p else fs) = removeFile fs p := by
  by_cases h : existsSegs fs p = true
  · rw [if_pos h]
  · rw [if_neg (by simpa using h)]
    cases fs with
    | mk files =>
      unfold removeFile
      congr 1
      refine (List.filter_eq_self.mpr ?_).symm
      intro kv hkv
      rw [bne_iff_ne]
      intro hc
      unfold existsSegs at h
      rw [List.any_eq_true] at h
      exact h ⟨kv, hkv, by rw [hc]; exact isPrefixOf_self p⟩

/-- Resolving the primary model path. -/
theorem c4_join_primary (W B : String) (hW : goodSeg W) (hB : '/' ∉ B.data) :
    joinSegs ROOTsegs ("Models/" ++ W ++ "/" ++ B ++ ".glb") =
      ROOTsegs ++ ["Models", W, B ++ ".glb"] := by
  rw [show "Models/" ++ W ++ "/" ++ B ++ ".glb" =
      "Models" ++ "/" ++ (W ++ "/" ++ (B ++ ".glb")) from String.ext (by
    simp [show ("Models/" : String).data = "Models".data ++ ['/'] from rfl,
      show ("/" : String).data = ['/'] from rfl])]
  exact joinSegs_triple (by decide) hW
    (goodSeg_of (no_slash_append hB (by decide))
      (three_le_append_right _ (by decide)))

/-- Resolving a companion texture path. -/
theorem c4_join_tex (W B te : String) (hW : goodSeg W) (hB : '/' ∉ B.data)
    (hte : '/' ∉ te.data) :
    joinSegs ROOTsegs ("Models/" ++ W ++ "/" ++ B ++ "_tex" ++ te) =
      ROOTsegs ++ ["Models", W, B ++ "_tex" ++ te] := by
  rw [show "Models/" ++ W ++ "/" ++ B ++ "_tex" ++ te =
      "Models" ++ "/" ++ (W ++ "/" ++ (B ++ "_tex" ++ te)) from String.ext (by
    simp [show ("Models/" : String).data = "Models".data ++ ['/'] from rfl,
      show ("/" : String).data = ['/'] from rfl])]
  exact joinSegs_triple (by decide) hW
    (goodSeg_of (no_slash_append (no_slash_append hB (by decide)) hte)
      (three_le_append_left _ (three_le_append_right _ (by decide))))

theorem eq_dropLast_concat {α : Type} {l : List α} :
    ∀ {f : α}, l.getLast? = some f → l = l.dropLast ++ [f] := by
  induction l with
  | nil => intro f h; exact Option.noConfusion h
  | cons x t ih =>
    intro f h
    cases t with
    | nil =>
      have hx : x = f := by simpa using h
      subst hx
      rfl
    | cons y s =>
      rw [List.getLast?_cons_cons] at h
      have h2 := ih h
      show x :: y :: s = x :: (y :: s).dropLast ++ [f]
      rw [List.cons_append]
      exact congrArg (List.cons x) h2

/-- Every scanned entry's category-relative path is the folder followed
by the name of an actual file directly inside that folder. -/
theorem scanFolder_file_shape {fs : FS} {folder : String} {exts : List String}
    {se : ScanEntry} (h : se ∈ scanFolder fs folder exts) :
    ∃ f, se.file = folder ++ "/" ++ f ∧
      ∃ kv ∈ fs.files, kv.1 = joinSegs ROOTsegs folder ++ [f] := by
  unfold scanFolder at h
  dsimp only at h
  split at h
  · rcases List.mem_map.mp h with ⟨f, hf, hse⟩
    rcases List.mem_filter.mp hf with ⟨hcn, _⟩
    rcases List.mem_filterMap.mp hcn with ⟨kv, hkv, hchild⟩
    unfold childName at hchild
    split at hchild
    case isTrue hdir =>
      refine ⟨f, ?_, kv, hkv, ?_⟩
      · rw [← hse]
      · rw [← hdir]
        exact eq_dropLast_concat hchild
    case isFalse => exact Option.noConfusion hchild
  · exact absurd h (List.not_mem_nil se)

theorem skinAssets_file_shape {fs : FS} {w folder : String} {a : Asset}
    (h : a ∈ skinAssets fs w folder) :
    ∃ f, a.file = folder ++ "/" ++ f ∧
      ∃ kv ∈ fs.files, kv.1 = joinSegs ROOTsegs folder ++ [f] := by
  unfold skinAssets at h
  rcases List.mem_map.mp h with ⟨se, hse, hae⟩
  obtain ⟨f, hfile, hrest⟩ := scanFolder_file_shape hse
  refine ⟨f, ?_, hrest⟩
  rw [← hae]
  exact hfile

theorem specialAssets_file_shape {fs : FS} {a : Asset}
    (h : a ∈ specialAssets fs) :
    ∃ f, a.file = SPECIAL_FOLDER ++ "/" ++ f ∧
      ∃ kv ∈ fs.files, kv.1 = joinSegs ROOTsegs SPECIAL_FOLDER ++ [f] := by
  unfold specialAssets at h
  rcases List.mem_map.mp h with ⟨se, hse, hae⟩
  obtain ⟨f, hfile, hrest⟩ := scanFolder_file_shape hse
  refine ⟨f, ?_, hrest⟩
  rw [← hae]
  exact hfile

theorem modelAssets_file_shape {fs : FS} {w folder : String} {a : Asset}
    (h : a ∈ modelAssets fs w folder) :
    ∃ f, a.file = folder ++ "/" ++ f ∧
      ∃ kv ∈ fs.files, kv.1 = joinSegs ROOTsegs folder ++ [f] := by
  unfold modelAssets at h
  rcases List.mem_map.mp h with ⟨se, hse, hae⟩
  obtain ⟨f, hfile, hrest⟩ := scanFolder_file_shape hse
  refine ⟨f, ?_, hrest⟩
  rw [← hae]
  exact hfile

/-- The folders `scanAll` reads, in order. -/
def SCAN_CATEGORY_FOLDERS : List String :=
  ["AR", "AWP", "Shotgun", "SMG", "Special",
   "Models/AR", "Models/AWP", "Models/SMG", "Models/Shotgun"]

/-- Every asset produced by a scan points at a file of a configured
category folder. -/
theorem scanAll_file_shape {fs : FS} {a : Asset} (h : a ∈ scanAll fs) :
    ∃ folder ∈ SCAN_CATEGORY_FOLDERS, ∃ f, a.file = folder ++ "/" ++ f ∧
      ∃ kv ∈ fs.files, kv.1 = joinSegs ROOTsegs folder ++ [f] := by
  unfold scanAll at h
  simp only [List.mem_append] at h
  rcases h with ((((((((h | h) | h) | h) | h) | h) | h) | h) | h)
  · obtain ⟨f, hfile, hrest⟩ := skinAssets_file_shape h
    exact ⟨"AR", by decide, f, hfile, hrest⟩
  · obtain ⟨f, hfile, hrest⟩ := skinAssets_file_shape h
    exact ⟨"AWP", by decide, f, hfile, hrest⟩
  · obtain ⟨f, hfile, hrest⟩ := skinAssets_file_shape h
    exact ⟨"Shotgun", by decide, f, hfile, hrest⟩
  · obtain ⟨f, hfile, hrest⟩ := skinAssets_file_shape h
    exact ⟨"SMG", by decide, f, hfile, hrest⟩
  · obtain ⟨f, hfile, hrest⟩ := specialAssets_file_shape h
    exact ⟨SPECIAL_FOLDER, by decide, f, hfile, hrest⟩
  · obtain ⟨f, hfile, hrest⟩ := modelAssets_file_shape h
    exact ⟨"Models/AR", by decide, f, hfile, hrest⟩
  · obtain ⟨f, hfile, hrest⟩ := modelAssets_file_shape h
    exact ⟨"Models/AWP", by decide, f, hfile, hrest⟩
  · obtain ⟨f, hfile, hrest⟩ := modelAssets_file_shape h
    exact ⟨"Models/SMG", by decide, f, hfile, hrest⟩
  · obtain ⟨f, hfile, hrest⟩ := modelAssets_file_shape h
    exact ⟨"Models/Shotgun", by decide, f, hfile, hrest⟩

theorem no_models_eq_flat {folder W : String} (hfold : folder = "Models/" ++ W)
    (hflat : '/' ∉ folder.data) : False := by
  apply hflat
  rw [hfold, String.data_append]
  exact List.mem_append_left _ (by decide)

/-- **C4.** Deleting a model primary file `Models/<W>/<Base>.glb` that
resolves under the root succeeds, removes from the store exactly the
primary file, every companion texture `<Base>_tex<ext>` for the allowed
image extensions, and the dedicated preview
`Previews/model-<w>-<base>.webp` — each removal a no-op when the file is
absent — and the regenerated manifest holds the fresh scan of the
resulting tree, in which no asset references the deleted primary
file. -/
theorem c4_cascade_delete (st : ServerState) (W B now : String)
    (hW : goodSeg W) (hB : '/' ∉ B.data) (hBne : B ≠ "")
    (hwf : ∀ kv ∈ st.fs.files, ∀ s ∈ kv.1, '/' ∉ s.data)
    (hex : existsSegs st.fs (ROOTsegs ++ ["Models", W, B ++ ".glb"]) = true) :
    (handleDelete st (some ("Models/" ++ W ++ "/" ++ B ++ ".glb")) now).resp =
      ⟨200, true, none⟩ ∧
    (∀ kv, kv ∈
        (handleDelete st (some ("Models/" ++ W ++ "/" ++ B ++ ".glb")) now).st.fs.files ↔
      kv ∈ st.fs.files ∧ kv.1 ≠ ROOTsegs ++ ["Models", W, B ++ ".glb"] ∧
      (∀ e ∈ IMAGE_EXTS, kv.1 ≠ ROOTsegs ++ ["Models", W, B ++ "_tex" ++ e]) ∧
      kv.1 ≠ ROOTsegs ++ ["Previews",
        "model-" ++ jsToLower W ++ "-" ++ jsToLower B ++ ".webp"]) ∧
    (∃ m, (handleDelete st (some ("Models/" ++ W ++ "/" ++ B ++ ".glb")) now).st.manifestFile =
        some m ∧
      m.assets =
        scanAll (handleDelete st (some ("Models/" ++ W ++ "/" ++ B ++ ".glb")) now).st.fs ∧
      ∀ a ∈ m.assets, a.file ≠ "Models/" ++ W ++ "/" ++ B ++ ".glb") := by
  have hBd : B.data ≠ [] := fun hc => hBne (String.ext (by rw [hc]))
  have hWd : W.data ≠ [] := fun hc => hW.1 (String.ext (by rw [hc]))
  have hfne : ("Models/" ++ W ++ "/" ++ B ++ ".glb") ≠ "" := by
    intro hc
    have h3 := congrArg List.length (congrArg String.data hc)
    simp only [String.data_append, List.length_append,
      show ("Models/" : String).data.length = 7 from rfl,
      show ("/" : String).data.length = 1 from rfl,
      show (".glb" : String).data.length = 4 from rfl,
      show ("" : String).data.length = 0 from rfl] at h3
    omega
  have hassoc1 : "Models/" ++ W ++ "/" ++ B ++ ".glb" =
      ("Models/" ++ W) ++ "/" ++ (B ++ ".glb") := String.ext (by simp)
  have hglbne : (B ++ ".glb").data ≠ [] := by
    rw [String.data_append]
    intro hc
    have h2 := (List.append_eq_nil.mp hc).2
    simp [show (".glb" : String).data = ['.', 'g', 'l', 'b'] from rfl] at h2
  have hglbslash : '/' ∉ (B ++ ".glb").data := no_slash_append hB (by decide)
  have hbase : jsBasename ("Models/" ++ W ++ "/" ++ B ++ ".glb") = B ++ ".glb" := by
    rw [hassoc1]
    exact jsBasename_last _ _ hglbslash hglbne
  have hext : jsExtname ("Models/" ++ W ++ "/" ++ B ++ ".glb") = ".glb" :=
    jsExtname_glb _ B hbase hBd
  have hbe2 : jsBasenameExt ("Models/" ++ W ++ "/" ++ B ++ ".glb") ".glb" = B :=
    jsBasenameExt_strip _ B ".glb" hbase hBd
  obtain ⟨aW, tW, hWr⟩ : ∃ a t, W.data.reverse = a :: t := by
    cases hc : W.data.reverse with
    | nil => exact absurd (by simpa using congrArg List.reverse hc) hWd
    | cons a t => exact ⟨a, t, rfl⟩
  have haW : aW ≠ '/' := by
    intro hc
    subst hc
    apply hW.2.2.2
    rw [← List.mem_reverse, hWr]
    exact List.mem_cons_self _ _
  have hdir : jsDirname ("Models/" ++ W ++ "/" ++ B ++ ".glb") = "Models/" ++ W := by
    rw [hassoc1]
    refine jsDirname_last _ _ hglbslash hglbne aW (tW ++ "Models/".data.reverse) ?_ haW
    rw [String.data_append, List.reverse_append, hWr, List.cons_append]
  have hsplit : jsSplitSlash ("Models/" ++ W ++ "/" ++ B ++ ".glb") =
      ["Models", W, B ++ ".glb"] := by
    rw [show "Models/" ++ W ++ "/" ++ B ++ ".glb" =
        "Models" ++ "/" ++ (W ++ "/" ++ (B ++ ".glb")) from String.ext (by
      simp [show ("Models/" : String).data = "Models".data ++ ['/'] from rfl,
        show ("/" : String).data = ['/'] from rfl])]
    exact jsSplitSlash_triple (by decide) hW.2.2.2 hglbslash
  have hsw : jsStartsWith ("Models/" ++ W ++ "/" ++ B ++ ".glb") "Models/" = true := by
    rw [show "Models/" ++ W ++ "/" ++ B ++ ".glb" =
        "Models/" ++ (W ++ "/" ++ B ++ ".glb") from String.ext (by simp)]
    exact jsStartsWith_append _ _
  have hjoin : joinSegs ROOTsegs ("Models/" ++ W ++ "/" ++ B ++ ".glb") =
      ROOTsegs ++ ["Models", W, B ++ ".glb"] := c4_join_primary W B hW hB
  have hpn : '/' ∉ ("model-" ++ jsToLower W ++ "-" ++ jsToLower B ++ ".webp").data :=
    no_slash_append (no_slash_append (no_slash_append (no_slash_append
      (by decide) (jsToLower_no_slash hW.2.2.2)) (by decide))
      (jsToLower_no_slash hB)) (by decide)
  have hpnlen : 3 ≤ ("model-" ++ jsToLower W ++ "-" ++ jsToLower B ++ ".webp").data.length :=
    three_le_append_left _ (three_le_append_left _ (three_le_append_left _
      (three_le_append_left _ (by decide))))
  have hOut : handleDelete st (some ("Models/" ++ W ++ "/" ++ B ++ ".glb")) now =
      { st := (regenerateManifestFile { st with fs :=
          (removeFile (removeFile (removeFile (removeFile (removeFile (removeFile st.fs
            (ROOTsegs ++ ["Models", W, B ++ "_tex" ++ ".png"]))
            (ROOTsegs ++ ["Models", W, B ++ "_tex" ++ ".jpg"]))
            (ROOTsegs ++ ["Models", W, B ++ "_tex" ++ ".jpeg"]))
            (ROOTsegs ++ ["Models", W, B ++ "_tex" ++ ".webp"]))
            (ROOTsegs ++ ["Previews",
              "model-" ++ jsToLower W ++ "-" ++ jsToLower B ++ ".webp"]))
            (ROOTsegs ++ ["Models", W, B ++ ".glb"])) } now).1,
        resp := ⟨200, true, none⟩, writes := [] } := by
    unfold handleDelete
    dsimp only
    rw [if_neg hfne, hjoin,
      if_neg (not_not_intro (startsWith_renderAbs "Models" [W, B ++ ".glb"])),
      if_neg (not_not_intro hex), hext,
      show jsToLower ".glb" = ".glb" from by decide, hbe2, hdir,
      if_pos rfl]
    simp only [IMAGE_EXTS, List.foldl_cons, List.foldl_nil]
    rw [c4_join_tex W B ".png" hW hB (by decide),
      c4_join_tex W B ".jpg" hW hB (by decide),
      c4_join_tex W B ".jpeg" hW hB (by decide),
      c4_join_tex W B ".webp" hW hB (by decide),
      if_pos hsw, hsplit, if_pos (by simp),
      show (["Models", W, B ++ ".glb"] : List String).getD 1 "" = W from rfl]
    dsimp only
    rw [joinSegs_previews_tail hpn hpnlen]
    simp only [condRemove_eq]
  have hmem : ∀ kv, kv ∈
      (removeFile (removeFile (removeFile (removeFile (removeFile (removeFile st.fs
        (ROOTsegs ++ ["Models", W, B ++ "_tex" ++ ".png"]))
        (ROOTsegs ++ ["Models", W, B ++ "_tex" ++ ".jpg"]))
        (ROOTsegs ++ ["Models", W, B ++ "_tex" ++ ".jpeg"]))
        (ROOTsegs ++ ["Models", W, B ++ "_tex" ++ ".webp"]))
        (ROOTsegs ++ ["Previews",
          "model-" ++ jsToLower W ++ "-" ++ jsToLower B ++ ".webp"]))
        (ROOTsegs ++ ["Models", W, B ++ ".glb"])).files ↔
      kv ∈ st.fs.files ∧ kv.1 ≠ ROOTsegs ++ ["Models", W, B ++ ".glb"] ∧
      (∀ e ∈ IMAGE_EXTS, kv.1 ≠ ROOTsegs ++ ["Models", W, B ++ "_tex" ++ e]) ∧
      kv.1 ≠ ROOTsegs ++ ["Previews",
        "model-" ++ jsToLower W ++ "-" ++ jsToLower B ++ ".webp"] := by
    intro kv
    simp only [removeFile, List.mem_filter, bne_iff_ne, ne_eq, IMAGE_EXTS,
      List.mem_cons, List.not_mem_nil, or_false, forall_eq_or_imp, forall_eq]
    constructor
    · rintro ⟨⟨⟨⟨⟨⟨h0, h1⟩, h2⟩, h3⟩, h4⟩, h5⟩, h6⟩
      exact ⟨h0, h6, ⟨h1, h2, h3, h4⟩, h5⟩
    · rintro ⟨h0, h6, ⟨h1, h2, h3, h4⟩, h5⟩
      exact ⟨⟨⟨⟨⟨⟨h0, h1⟩, h2⟩, h3⟩, h4⟩, h5⟩, h6⟩
  refine ⟨by rw [hOut], ?_, ?_⟩
  · intro kv
    rw [hOut]
    exact hmem kv
  · rw [hOut]
    refine ⟨_, rfl, rfl, ?_⟩
    intro a ha hfa
    obtain ⟨folder, hfolder, f, hfile, kv, hkv, hkey⟩ := scanAll_file_shape ha
    obtain ⟨hkvst, hkvP, -, -⟩ := (hmem kv).1 hkv
    have hfslash : '/' ∉ f.data := hwf kv hkvst f (by
      rw [hkey]
      exact List.mem_append_right _ (List.mem_singleton.mpr rfl))
    have hffull : folder ++ "/" ++ f = ("Models/" ++ W) ++ "/" ++ (B ++ ".glb") :=
      hfile.symm.trans (hfa.trans hassoc1)
    obtain ⟨hfold, hfeq⟩ := last_slash_decomp hfslash hglbslash hffull
    subst hfeq
    simp only [SCAN_CATEGORY_FOLDERS, List.mem_cons, List.not_mem_nil, or_false] at hfolder
    rcases hfolder with hfo | hfo | hfo | hfo | hfo | hfo | hfo | hfo | hfo
    · subst hfo; exact no_models_eq_flat hfold (by decide)
    · subst hfo; exact no_models_eq_flat hfold (by decide)
    · subst hfo; exact no_models_eq_flat hfold (by decide)
    · subst hfo; exact no_models_eq_flat hfold (by decide)
    · subst hfo; exact no_models_eq_flat hfold (by decide)
    · subst hfo
      have hWv : W = "AR" := (append_left_cancel_str
        ((show ("Models/" : String) ++ "AR" = "Models/AR" by decide).trans hfold)).symm
      subst hWv
      apply hkvP
      rw [hkey, show joinSegs ROOTsegs "Models/AR" =
        ["srv", "haze-client-assets", "Models", "AR"] from by decide]
      rfl
    · subst hfo
      have hWv : W = "AWP" := (append_left_cancel_str
        ((show ("Models/" : String) ++ "AWP" = "Models/AWP" by decide).trans hfold)).symm
      subst hWv
      apply hkvP
      rw [hkey, show joinSegs ROOTsegs "Models/AWP" =
        ["srv", "haze-client-assets", "Models", "AWP"] from by decide]
      rfl
    · subst hfo
      have hWv : W = "SMG" := (append_left_cancel_str
        ((show ("Models/" : String) ++ "SMG" = "Models/SMG" by decide).trans hfold)).symm
      subst hWv
      apply hkvP
      rw [hkey, show joinSegs ROOTsegs "Models/SMG" =
        ["srv", "haze-client-assets", "Models", "SMG"] from by decide]
      rfl
    · subst hfo
      have hWv : W = "Shotgun" := (append_left_cancel_str
        ((show ("Models/" : String) ++ "Shotgun" = "Models/Shotgun" by decide).trans hfold)).symm
      subst hWv
      apply hkvP
      rw [hkey, show joinSegs ROOTsegs "Models/Shotgun" =
        ["srv", "haze-client-assets", "Models", "Shotgun"] from by decide]
      rfl

/-- The C4 witness store: a model, its texture, and its preview. -/
def c4St : ServerState :=
  ⟨⟨[(["srv", "haze-client-assets", "Models", "AR", "Foo.glb"], 10),
     (["srv", "haze-client-assets", "Models", "AR", "Foo_tex.png"], 5),
     (["srv", "haze-client-assets", "Previews", "model-ar-foo.webp"], 3)]⟩, none⟩

/-- Concrete instance of C4: deleting `Models/AR/Foo.glb` from the
witness store succeeds. -/
theorem c4_cascade_delete_witness :
    existsSegs c4St.fs (ROOTsegs ++ ["Models", "AR", "Foo" ++ ".glb"]) = true ∧
    (handleDelete c4St (some ("Models/" ++ "AR" ++ "/" ++ "Foo" ++ ".glb")) "t").resp =
      ⟨200, true, none⟩ :=
  ⟨by decide,
    (c4_cascade_delete c4St "AR" "Foo" "t" (by decide) (by decide) (by decide)
      (by decide) (by decide)).1⟩

/-! ## C3: round-trip discovery -/

theorem count_childNames_aux {dir : List String} {n : String} :
    ∀ {files : List (List String × Nat)},
      (files.map Prod.fst).Nodup →
      (∃ sz, (dir ++ [n], sz) ∈ files) →
      (files.filterMap (fun kv => childName dir kv.1)).count n = 1 := by
  intro files
  induction files with
  | nil =>
    intro _ hmem
    rcases hmem with ⟨sz, h⟩
    exact absurd h (List.not_mem_nil _)
  | cons kv t ih =>
    intro hnodup hmem
    rw [List.map_cons, List.nodup_cons] at hnodup
    by_cases hkv : kv.1 = dir ++ [n]
    · have hcn : childName dir kv.1 = some n := by
        unfold childName
        rw [hkv, List.dropLast_concat, if_pos rfl, List.getLast?_concat]
      have hzero : ((t.filterMap (fun kv => childName dir kv.1)).count n) = 0 := by
        rw [List.count_eq_zero]
        intro hmem2
        rcases List.mem_filterMap.mp hmem2 with ⟨kv2, hkv2, hcn2⟩
        have hk2 : kv2.1 = dir ++ [n] := by
          unfold childName at hcn2
          split at hcn2
          case isTrue hd => rw [eq_dropLast_concat hcn2, hd]
          case isFalse => exact Option.noConfusion hcn2
        apply hnodup.1
        rw [hkv, ← hk2]
        exact List.mem_map.mpr ⟨kv2, hkv2, rfl⟩
      simp only [List.filterMap_cons, hcn]
      rw [List.count_cons, if_pos (by simp), hzero]
    · have hmem2 : ∃ sz, (dir ++ [n], sz) ∈ t := by
        rcases hmem with ⟨sz, hm⟩
        rcases List.mem_cons.mp hm with he | ht
        · exact absurd (congrArg Prod.fst he).symm hkv
        · exact ⟨sz, ht⟩
      have hrec := ih hnodup.2 hmem2
      cases hcn : childName dir kv.1 with
      | none => simp only [List.filterMap_cons, hcn]; exact hrec
      | some m =>
        have hm : m ≠ n := by
          intro hc
          subst hc
          apply hkv
          unfold childName at hcn
          split at hcn
          case isTrue hd => rw [eq_dropLast_concat hcn, hd]
          case isFalse => exact Option.noConfusion hcn
        simp only [List.filterMap_cons, hcn]
        rw [List.count_cons, if_neg (by simp [hm]), hrec]

/-- With unique store keys, a present file appears exactly once in its
directory listing. -/
theorem count_childNames {fs : FS} {dir : List String} {n : String}
    (hnodup : (fs.files.map Prod.fst).Nodup)
    (hmem : ∃ sz, (dir ++ [n], sz) ∈ fs.files) :
    (childNames fs dir).count n = 1 := by
  unfold childNames
  exact count_childNames_aux hnodup hmem

/-- A qualifying present file is scanned to exactly one entry, with the
category-relative path and the extension-stripped base name. -/
theorem scanFolder_filter_found {fs : FS} {folder n : String}
    {exts : List String} {sz : Nat}
    (hnodup : (fs.files.map Prod.fst).Nodup)
    (hkey : (joinSegs ROOTsegs folder ++ [n], sz) ∈ fs.files)
    (hq : exts.contains (jsToLower (jsExtname n)) = true) :
    (scanFolder fs folder exts).filter (fun se => se.file == folder ++ "/" ++ n) =
      [{ file := folder ++ "/" ++ n, name := jsBasenameExt n (jsExtname n),
         size := (fs.files.lookup (joinSegs ROOTsegs folder ++ [n])).getD 0 }] := by
  have hex2 : existsSegs fs (joinSegs ROOTsegs folder) = true := by
    unfold existsSegs
    rw [List.any_eq_true]
    exact ⟨_, hkey, isPrefixOf_append_self _ _⟩
  unfold scanFolder
  dsimp only
  rw [if_pos hex2, List.filter_map]
  simp only [Function.comp_def]
  have hcg2 : ∀ f ∈ (childNames fs (joinSegs ROOTsegs folder)).filter
      (fun f => exts.contains (jsToLower (jsExtname f))),
      (folder ++ "/" ++ f == folder ++ "/" ++ n) = (f == n) := by
    intro f _
    by_cases hf : f = n
    · subst hf; simp
    · have hne2 : folder ++ "/" ++ f ≠ folder ++ "/" ++ n :=
        fun hc => hf (append_left_cancel_str hc)
      simp [hf, hne2]
  rw [List.filter_congr hcg2, List.filter_filter]
  have hcg3 : ∀ f ∈ childNames fs (joinSegs ROOTsegs folder),
      ((f == n) && exts.contains (jsToLower (jsExtname f))) = (f == n) := by
    intro f _
    by_cases hf : f = n
    · subst hf
      simp only [beq_self_eq_true, Bool.true_and]
      exact hq
    · simp [hf]
  rw [List.filter_congr hcg3, List.filter_beq,
    count_childNames hnodup ⟨sz, hkey⟩, List.replicate_one]
  rfl

/-- A file with a non-qualifying extension is scanned to nothing. -/
theorem scanFolder_filter_notfound {fs : FS} {folder n : String}
    {exts : List String}
    (hq : exts.contains (jsToLower (jsExtname n)) = false) :
    (scanFolder fs folder exts).filter
      (fun se => se.file == folder ++ "/" ++ n) = [] := by
  unfold scanFolder
  dsimp only
  split
  · rw [List.filter_map]
    simp only [Function.comp_def]
    have hnil : ((childNames fs (joinSegs ROOTsegs folder)).filter
        (fun f => exts.contains (jsToLower (jsExtname f)))).filter
        (fun f => folder ++ "/" ++ f == folder ++ "/" ++ n) = [] := by
      rw [List.filter_eq_nil_iff]
      intro f hf
      rw [Bool.not_eq_true, beq_eq_false_iff_ne]
      intro hc
      have hfn : f = n := append_left_cancel_str hc
      subst hfn
      have hqf := (List.mem_filter.mp hf).2
      rw [hq] at hqf
      exact Bool.noConfusion hqf
    rw [hnil]
    rfl
  · rfl

/-- Assets of a differently named folder never match a category-relative
path of this folder. -/
theorem asset_filter_nil {fs : FS} {l : List Asset} {folderB folder n : String}
    (hsh : ∀ a ∈ l, ∃ f, a.file = folderB ++ "/" ++ f ∧
      ∃ kv ∈ fs.files, kv.1 = joinSegs ROOTsegs folderB ++ [f])
    (hwf : ∀ kv ∈ fs.files, ∀ s ∈ kv.1, '/' ∉ s.data)
    (hne : folderB ≠ folder) (hn : '/' ∉ n.data) :
    l.filter (fun a => a.file == folder ++ "/" ++ n) = [] := by
  rw [List.filter_eq_nil_iff]
  intro a ha
  rw [Bool.not_eq_true, beq_eq_false_iff_ne]
  obtain ⟨f, hfile, kv, hkv, hkey⟩ := hsh a ha
  have hfsl : '/' ∉ f.data := hwf kv hkv f (by
    rw [hkey]
    exact List.mem_append_right _ (List.mem_singleton.mpr rfl))
  intro hc
  rw [hfile] at hc
  exact hne (last_slash_decomp hfsl hn hc).1

theorem skinAssets_nil (fs : FS) (w folderB folder n : String)
    (hwf : ∀ kv ∈ fs.files, ∀ s ∈ kv.1, '/' ∉ s.data)
    (hne : folderB ≠ folder) (hn : '/' ∉ n.data) :
    (skinAssets fs w folderB).filter (fun a => a.file == folder ++ "/" ++ n) = [] :=
  asset_filter_nil (fun _ ha => skinAssets_file_shape ha) hwf hne hn

theorem specialAssets_nil (fs : FS) (folder n : String)
    (hwf : ∀ kv ∈ fs.files, ∀ s ∈ kv.1, '/' ∉ s.data)
    (hne : SPECIAL_FOLDER ≠ folder) (hn : '/' ∉ n.data) :
    (specialAssets fs).filter (fun a => a.file == folder ++ "/" ++ n) = [] :=
  asset_filter_nil (fun _ ha => specialAssets_file_shape ha) hwf hne hn

theorem modelAssets_nil (fs : FS) (w folderB folder n : String)
    (hwf : ∀ kv ∈ fs.files, ∀ s ∈ kv.1, '/' ∉ s.data)
    (hne : folderB ≠ folder) (hn : '/' ∉ n.data) :
    (modelAssets fs w folderB).filter (fun a => a.file == folder ++ "/" ++ n) = [] :=
  asset_filter_nil (fun _ ha => modelAssets_file_shape ha) hwf hne hn

/-- A qualifying skin file becomes exactly one skin asset in its block. -/
theorem skinAssets_filter_found {fs : FS} {w folder n : String} {sz : Nat}
    (hnodup : (fs.files.map Prod.fst).Nodup)
    (hkey : (joinSegs ROOTsegs folder ++ [n], sz) ∈ fs.files)
    (hq : IMAGE_EXTS.contains (jsToLower (jsExtname n)) = true) :
    ((skinAssets fs w folder).filter (fun a => a.file == folder ++ "/" ++ n)).map
        (fun a => (a.id, a.type, a.weapon)) =
      [("skin-" ++ w ++ "-" ++ jsToLower (jsBasenameExt n (jsExtname n)),
        "skin", some w)] := by
  unfold skinAssets
  rw [List.filter_map]
  simp only [Function.comp_def]
  rw [scanFolder_filter_found hnodup hkey hq]
  rfl

/-- A qualifying special file becomes exactly one special asset. -/
theorem specialAssets_filter_found {fs : FS} {n : String} {sz : Nat}
    (hnodup : (fs.files.map Prod.fst).Nodup)
    (hkey : (joinSegs ROOTsegs SPECIAL_FOLDER ++ [n], sz) ∈ fs.files)
    (hq : IMAGE_EXTS.contains (jsToLower (jsExtname n)) = true) :
    ((specialAssets fs).filter
        (fun a => a.file == SPECIAL_FOLDER ++ "/" ++ n)).map
        (fun a => (a.id, a.type, a.weapon)) =
      [("special-" ++ jsToLower (jsBasenameExt n (jsExtname n)),
        "special", none)] := by
  unfold specialAssets
  rw [List.filter_map]
  simp only [Function.comp_def]
  rw [scanFolder_filter_found hnodup hkey hq]
  rfl

/-- A qualifying model file becomes exactly one model asset in its
block. -/
theorem modelAssets_filter_found {fs : FS} {w folder n : String} {sz : Nat}
    (hnodup : (fs.files.map Prod.fst).Nodup)
    (hkey : (joinSegs ROOTsegs folder ++ [n], sz) ∈ fs.files)
    (hq : MODEL_EXTS.contains (jsToLower (jsExtname n)) = true) :
    ((modelAssets fs w folder).filter (fun a => a.file == folder ++ "/" ++ n)).map
        (fun a => (a.id, a.type, a.weapon)) =
      [("model-" ++ w ++ "-" ++ jsToLower (jsBasenameExt n (jsExtname n)),
        "model", some w)] := by
  unfold modelAssets
  rw [List.filter_map]
  simp only [Function.comp_def]
  rw [scanFolder_filter_found hnodup hkey hq]
  rfl

theorem skinAssets_filter_notfound {fs : FS} {w folder n : String}
    (hq : IMAGE_EXTS.contains (jsToLower (jsExtname n)) = false) :
    (skinAssets fs w folder).filter (fun a => a.file == folder ++ "/" ++ n) = [] := by
  unfold skinAssets
  rw [List.filter_map]
  simp only [Function.comp_def]
  rw [scanFolder_filter_notfound hq]
  rfl

theorem specialAssets_filter_notfound {fs : FS} {n : String}
    (hq : IMAGE_EXTS.contains (jsToLower (jsExtname n)) = false) :
    (specialAssets fs).filter
      (fun a => a.file == SPECIAL_FOLDER ++ "/" ++ n) = [] := by
  unfold specialAssets
  rw [List.filter_map]
  simp only [Function.comp_def]
  rw [scanFolder_filter_notfound hq]
  rfl

theorem modelAssets_filter_notfound {fs : FS} {w folder n : String}
    (hq : MODEL_EXTS.contains (jsToLower (jsExtname n)) = false) :
    (modelAssets fs w folder).filter (fun a => a.file == folder ++ "/" ++ n) = [] := by
  unfold modelAssets
  rw [List.filter_map]
  simp only [Function.comp_def]
  rw [scanFolder_filter_notfound hq]
  rfl

/-- **C3.** With unique keys and slash-free path segments, every file
present in a configured category folder with an allow-listed (lowercased)
extension yields exactly one asset in a full scan — its id is
`<type>-[<weapon>-]<lowercased base name>` and its file the
category-relative path `<folder>/<filename>` — a present file with a
non-qualifying extension yields none, and a missing category folder
contributes an empty list. -/
theorem c3_roundtrip_discovery (fs : FS)
    (hnodup : (fs.files.map Prod.fst).Nodup)
    (hwf : ∀ kv ∈ fs.files, ∀ s ∈ kv.1, '/' ∉ s.data) :
    (∀ w folder, (w, folder) ∈ SKIN_FOLDERS → ∀ n sz,
      (joinSegs ROOTsegs folder ++ [n], sz) ∈ fs.files →
      (IMAGE_EXTS.contains (jsToLower (jsExtname n)) = true →
        ((scanAll fs).filter (fun a => a.file == folder ++ "/" ++ n)).map
            (fun a => (a.id, a.type, a.weapon)) =
          [("skin-" ++ w ++ "-" ++ jsToLower (jsBasenameExt n (jsExtname n)),
            "skin", some w)]) ∧
      (IMAGE_EXTS.contains (jsToLower (jsExtname n)) = false →
        (scanAll fs).filter (fun a => a.file == folder ++ "/" ++ n) = [])) ∧
    (∀ n sz, (joinSegs ROOTsegs SPECIAL_FOLDER ++ [n], sz) ∈ fs.files →
      (IMAGE_EXTS.contains (jsToLower (jsExtname n)) = true →
        ((scanAll fs).filter
            (fun a => a.file == SPECIAL_FOLDER ++ "/" ++ n)).map
            (fun a => (a.id, a.type, a.weapon)) =
          [("special-" ++ jsToLower (jsBasenameExt n (jsExtname n)),
            "special", none)]) ∧
      (IMAGE_EXTS.contains (jsToLower (jsExtname n)) = false →
        (scanAll fs).filter
          (fun a => a.file == SPECIAL_FOLDER ++ "/" ++ n) = [])) ∧
    (∀ w folder, (w, folder) ∈ MODEL_FOLDERS → ∀ n sz,
      (joinSegs ROOTsegs folder ++ [n], sz) ∈ fs.files →
      (MODEL_EXTS.contains (jsToLower (jsExtname n)) = true →
        ((scanAll fs).filter (fun a => a.file == folder ++ "/" ++ n)).map
            (fun a => (a.id, a.type, a.weapon)) =
          [("model-" ++ w ++ "-" ++ jsToLower (jsBasenameExt n (jsExtname n)),
            "model", some w)]) ∧
      (MODEL_EXTS.contains (jsToLower (jsExtname n)) = false →
        (scanAll fs).filter (fun a => a.file == folder ++ "/" ++ n) = [])) ∧
    (∀ folder exts, existsSegs fs (joinSegs ROOTsegs folder) = false →
      scanFolder fs folder exts = []) := by
  refine ⟨?_, ?_, ?_, ?_⟩
  · intro w folder hpair n sz hkey
    have hn : '/' ∉ n.data := hwf _ hkey n
      (List.mem_append_right _ (List.mem_singleton.mpr rfl))
    simp only [SKIN_FOLDERS, List.mem_cons, List.not_mem_nil, or_false] at hpair
    rcases hpair with hp | hp | hp | hp
    · rw [Prod.mk.injEq] at hp
      obtain ⟨hw, hf⟩ := hp
      subst hw
      subst hf
      have hdecomp : (scanAll fs).filter
          (fun a => a.file == "AR" ++ "/" ++ n) =
          (skinAssets fs "ar" "AR").filter
          (fun a => a.file == "AR" ++ "/" ++ n) := by
        unfold scanAll
        simp only [List.filter_append]
        rw [skinAssets_nil fs "awp" "AWP" "AR" n hwf (by decide) hn,
          skinAssets_nil fs "shotgun" "Shotgun" "AR" n hwf (by decide) hn,
          skinAssets_nil fs "smg" "SMG" "AR" n hwf (by decide) hn,
          specialAssets_nil fs "AR" n hwf (by decide) hn,
          modelAssets_nil fs "ar" "Models/AR" "AR" n hwf (by decide) hn,
          modelAssets_nil fs "awp" "Models/AWP" "AR" n hwf (by decide) hn,
          modelAssets_nil fs "smg" "Models/SMG" "AR" n hwf (by decide) hn,
          modelAssets_nil fs "shotgun" "Models/Shotgun" "AR" n hwf (by decide) hn]
        simp only [List.append_nil, List.nil_append]
      constructor
      · intro hq
        rw [hdecomp]
        exact skinAssets_filter_found hnodup hkey hq
      · intro hq
        rw [hdecomp]
        exact skinAssets_filter_notfound hq
    · rw [Prod.mk.injEq] at hp
      obtain ⟨hw, hf⟩ := hp
      subst hw
      subst hf
      have hdecomp : (scanAll fs).filter
          (fun a => a.file == "AWP" ++ "/" ++ n) =
          (skinAssets fs "awp" "AWP").filter
          (fun a => a.file == "AWP" ++ "/" ++ n) := by
        unfold scanAll
        simp only [List.filter_append]
        rw [skinAssets_nil fs "ar" "AR" "AWP" n hwf (by decide) hn,
          skinAssets_nil fs "shotgun" "Shotgun" "AWP" n hwf (by decide) hn,
          skinAssets_nil fs "smg" "SMG" "AWP" n hwf (by decide) hn,
          specialAssets_nil fs "AWP" n hwf (by decide) hn,
          modelAssets_nil fs "ar" "Models/AR" "AWP" n hwf (by decide) hn,
          modelAssets_nil fs "awp" "Models/AWP" "AWP" n hwf (by decide) hn,
          modelAssets_nil fs "smg" "Models/SMG" "AWP" n hwf (by decide) hn,
          modelAssets_nil fs "shotgun" "Models/Shotgun" "AWP" n hwf (by decide) hn]
        simp only [List.append_nil, List.nil_append]
      constructor
      · intro hq
        rw [hdecomp]
        exact skinAssets_filter_found hnodup hkey hq
      · intro hq
        rw [hdecomp]
        exact skinAssets_filter_notfound hq
    · rw [Prod.mk.injEq] at hp
      obtain ⟨hw, hf⟩ := hp
      subst hw
      subst hf
      have hdecomp : (scanAll fs).filter
          (fun a => a.file == "Shotgun" ++ "/" ++ n) =
          (skinAssets fs "shotgun" "Shotgun").filter
          (fun a => a.file == "Shotgun" ++ "/" ++ n) := by
        unfold scanAll
        simp only [List.filter_append]
        rw [skinAssets_nil fs "ar" "AR" "Shotgun" n hwf (by decide) hn,
          skinAssets_nil fs "awp" "AWP" "Shotgun" n hwf (by decide) hn,
          skinAssets_nil fs "smg" "SMG" "Shotgun" n hwf (by decide) hn,
          specialAssets_nil fs "Shotgun" n hwf (by decide) hn,
          modelAssets_nil fs "ar" "Models/AR" "Shotgun" n hwf (by decide) hn,
          modelAssets_nil fs "awp" "Models/AWP" "Shotgun" n hwf (by decide) hn,
          modelAssets_nil fs "smg" "Models/SMG" "Shotgun" n hwf (by decide) hn,
          modelAssets_nil fs "shotgun" "Models/Shotgun" "Shotgun" n hwf (by decide) hn]
        simp only [List.append_nil, List.nil_append]
      constructor
      · intro hq
        rw [hdecomp]
        exact skinAssets_filter_found hnodup hkey hq
      · intro hq
        rw [hdecomp]
        exact skinAssets_filter_notfound hq
    · rw [Prod.mk.injEq] at hp
      obtain ⟨hw, hf⟩ := hp
      subst hw
      subst hf
      have hdecomp : (scanAll fs).filter
          (fun a => a.file == "SMG" ++ "/" ++ n) =
          (skinAssets fs "smg" "SMG").filter
          (fun a => a.file == "SMG" ++ "/" ++ n) := by
        unfold scanAll
        simp only [List.filter_append]
        rw [skinAssets_nil fs "ar" "AR" "SMG" n hwf (by decide) hn,
          skinAssets_nil fs "awp" "AWP" "SMG" n hwf (by decide) hn,
          skinAssets_nil fs "shotgun" "Shotgun" "SMG" n hwf (by decide) hn,
          specialAssets_nil fs "SMG" n hwf (by decide) hn,
          modelAssets_nil fs "ar" "Models/AR" "SMG" n hwf (by decide) hn,
          modelAssets_nil fs "awp" "Models/AWP" "SMG" n hwf (by decide) hn,
          modelAssets_nil fs "smg" "Models/SMG" "SMG" n hwf (by decide) hn,
          modelAssets_nil fs "shotgun" "Models/Shotgun" "SMG" n hwf (by decide) hn]
        simp only [List.append_nil, List.nil_append]
      constructor
      · intro hq
        rw [hdecomp]
        exact skinAssets_filter_found hnodup hkey hq
      · intro hq
        rw [hdecomp]
        exact skinAssets_filter_notfound hq
  · intro n sz hkey
    have hn : '/' ∉ n.data := hwf _ hkey n
      (List.mem_append_right _ (List.mem_singleton.mpr rfl))
    have hdecomp : (scanAll fs).filter
        (fun a => a.file == SPECIAL_FOLDER ++ "/" ++ n) =
        (specialAssets fs).filter
        (fun a => a.file == SPECIAL_FOLDER ++ "/" ++ n) := by
      unfold scanAll
      simp only [List.filter_append]
      rw [skinAssets_nil fs "ar" "AR" SPECIAL_FOLDER n hwf (by decide) hn,
        skinAssets_nil fs "awp" "AWP" SPECIAL_FOLDER n hwf (by decide) hn,
        skinAssets_nil fs "shotgun" "Shotgun" SPECIAL_FOLDER n hwf (by decide) hn,
        skinAssets_nil fs "smg" "SMG" SPECIAL_FOLDER n hwf (by decide) hn,
        modelAssets_nil fs "ar" "Models/AR" SPECIAL_FOLDER n hwf (by decide) hn,
        modelAssets_nil fs "awp" "Models/AWP" SPECIAL_FOLDER n hwf (by decide) hn,
        modelAssets_nil fs "smg" "Models/SMG" SPECIAL_FOLDER n hwf (by decide) hn,
        modelAssets_nil fs "shotgun" "Models/Shotgun" SPECIAL_FOLDER n hwf (by decide) hn]
      simp only [List.append_nil, List.nil_append]
    constructor
    · intro hq
      rw [hdecomp]
      exact specialAssets_filter_found hnodup hkey hq
    · intro hq
      rw [hdecomp]
      exact specialAssets_filter_notfound hq
  · intro w folder hpair n sz hkey
    have hn : '/' ∉ n.data := hwf _ hkey n
      (List.mem_append_right _ (List.mem_singleton.mpr rfl))
    simp only [List.mem_cons, MODEL_FOLDERS, List.not_mem_nil, or_false] at hpair
    rcases hpair with hp | hp | hp | hp
    · rw [Prod.mk.injEq] at hp
      obtain ⟨hw, hf⟩ := hp
      subst hw
      subst hf
      have hdecomp : (scanAll fs).filter
          (fun a => a.file == "Models/AR" ++ "/" ++ n) =
          (modelAssets fs "ar" "Models/AR").filter
          (fun a => a.file == "Models/AR" ++ "/" ++ n) := by
        unfold scanAll
        simp only [List.filter_append]
        rw [skinAssets_nil fs "ar" "AR" "Models/AR" n hwf (by decide) hn,
          skinAssets_nil fs "awp" "AWP" "Models/AR" n hwf (by decide) hn,
          skinAssets_nil fs "shotgun" "Shotgun" "Models/AR" n hwf (by decide) hn,
          skinAssets_nil fs "smg" "SMG" "Models/AR" n hwf (by decide) hn,
          specialAssets_nil fs "Models/AR" n hwf (by decide) hn,
          modelAssets_nil fs "awp" "Models/AWP" "Models/AR" n hwf (by decide) hn,
          modelAssets_nil fs "smg" "Models/SMG" "Models/AR" n hwf (by decide) hn,
          modelAssets_nil fs "shotgun" "Models/Shotgun" "Models/AR" n hwf (by decide) hn]
        simp only [List.append_nil, List.nil_append]
      constructor
      · intro hq
        rw [hdecomp]
        exact modelAssets_filter_found hnodup hkey hq
      · intro hq
        rw [hdecomp]
        exact modelAssets_filter_notfound hq
    · rw [Prod.mk.injEq] at hp
      obtain ⟨hw, hf⟩ := hp
      subst hw
      subst hf
      have hdecomp : (scanAll fs).filter
          (fun a => a.file == "Models/AWP" ++ "/" ++ n) =
          (modelAssets fs "awp" "Models/AWP").filter
          (fun a => a.file == "Models/AWP" ++ "/" ++ n) := by
        unfold scanAll
        simp only [List.filter_append]
        rw [skinAssets_nil fs "ar" "AR" "Models/AWP" n hwf (by decide) hn,
          skinAssets_nil fs "awp" "AWP" "Models/AWP" n hwf (by decide) hn,
          skinAssets_nil fs "shotgun" "Shotgun" "Models/AWP" n hwf (by decide) hn,
          skinAssets_nil fs "smg" "SMG" "Models/AWP" n hwf (by decide) hn,
          specialAssets_nil fs "Models/AWP" n hwf (by decide) hn,
          modelAssets_nil fs "ar" "Models/AR" "Models/AWP" n hwf (by decide) hn,
          modelAssets_nil fs "smg" "Models/SMG" "Models/AWP" n hwf (by decide) hn,
          modelAssets_nil fs "shotgun" "Models/Shotgun" "Models/AWP" n hwf (by decide) hn]
        simp only [List.append_nil, List.nil_append]
      constructor
      · intro hq
        rw [hdecomp]
        exact modelAssets_filter_found hnodup hkey hq
      · intro hq
        rw [hdecomp]
        exact modelAssets_filter_notfound hq
    · rw [Prod.mk.injEq] at hp
      obtain ⟨hw, hf⟩ := hp
      subst hw
      subst hf
      have hdecomp : (scanAll fs).filter
          (fun a => a.file == "Models/SMG" ++ "/" ++ n) =
          (modelAssets fs "smg" "Models/SMG").filter
          (fun a => a.file == "Models/SMG" ++ "/" ++ n) := by
        unfold scanAll
        simp only [List.filter_append]
        rw [skinAssets_nil fs "ar" "AR" "Models/SMG" n hwf (by decide) hn,
          skinAssets_nil fs "awp" "AWP" "Models/SMG" n hwf (by decide) hn,
          skinAssets_nil fs "shotgun" "Shotgun" "Models/SMG" n hwf (by decide) hn,
          skinAssets_nil fs "smg" "SMG" "Models/SMG" n hwf (by decide) hn,
          specialAssets_nil fs "Models/SMG" n hwf (by decide) hn,
          modelAssets_nil fs "ar" "Models/AR" "Models/SMG" n hwf (by decide) hn,
          modelAssets_nil fs "awp" "Models/AWP" "Models/SMG" n hwf (by decide) hn,
          modelAssets_nil fs "shotgun" "Models/Shotgun" "Models/SMG" n hwf (by decide) hn]
        simp only [List.append_nil, List.nil_append]
      constructor
      · intro hq
        rw [hdecomp]
        exact modelAssets_filter_found hnodup hkey hq
      · intro hq
        rw [hdecomp]
        exact modelAssets_filter_notfound hq
    · rw [Prod.mk.injEq] at hp
      obtain ⟨hw, hf⟩ := hp
      subst hw
      subst hf
      have hdecomp : (scanAll fs).filter
          (fun a => a.file == "Models/Shotgun" ++ "/" ++ n) =
          (modelAssets fs "shotgun" "Models/Shotgun").filter
          (fun a => a.file == "Models/Shotgun" ++ "/" ++ n) := by
        unfold scanAll
        simp only [List.filter_append]
        rw [skinAssets_nil fs "ar" "AR" "Models/Shotgun" n hwf (by decide) hn,
          skinAssets_nil fs "awp" "AWP" "Models/Shotgun" n hwf (by decide) hn,
          skinAssets_nil fs "shotgun" "Shotgun" "Models/Shotgun" n hwf (by decide) hn,
          skinAssets_nil fs "smg" "SMG" "Models/Shotgun" n hwf (by decide) hn,
          specialAssets_nil fs "Models/Shotgun" n hwf (by decide) hn,
          modelAssets_nil fs "ar" "Models/AR" "Models/Shotgun" n hwf (by decide) hn,
          modelAssets_nil fs "awp" "Models/AWP" "Models/Shotgun" n hwf (by decide) hn,
          modelAssets_nil fs "smg" "Models/SMG" "Models/Shotgun" n hwf (by decide) hn]
        simp only [List.append_nil, List.nil_append]
      constructor
      · intro hq
        rw [hdecomp]
        exact modelAssets_filter_found hnodup hkey hq
      · intro hq
        rw [hdecomp]
        exact modelAssets_filter_notfound hq
  · intro folder exts h
    unfold scanFolder
    dsimp only
    rw [if_neg (by simp [h])]

/-- The C3 witness store: one qualifying file in each kind of folder. -/
def c3Fs : FS :=
  ⟨[(["srv", "haze-client-assets", "AR", "Dragon.png"], 7),
    (["srv", "haze-client-assets", "Special", "Gold.webp"], 9),
    (["srv", "haze-client-assets", "Models", "AWP", "Fang.glb"], 11)]⟩

/-- Concrete instance of C3: the skin file `AR/Dragon.png` of the
witness store is discovered as exactly one `skin-ar-dragon` asset. -/
theorem c3_roundtrip_discovery_witness :
    ("ar", "AR") ∈ SKIN_FOLDERS ∧
    (joinSegs ROOTsegs "AR" ++ ["Dragon.png"], 7) ∈ c3Fs.files ∧
    ((scanAll c3Fs).filter
        (fun a => a.file == "AR" ++ "/" ++ "Dragon.png")).map
        (fun a => (a.id, a.type, a.weapon)) =
      [("skin-" ++ "ar" ++ "-" ++
          jsToLower (jsBasenameExt "Dragon.png" (jsExtname "Dragon.png")),
        "skin", some "ar")] :=
  ⟨by decide, by decide,
    ((c3_roundtrip_discovery c3Fs (by decide) (by decide)).1 "ar" "AR" (by decide)
      "Dragon.png" 7 (by decide)).1 (by decide)⟩

/-- The parts of the C5 counterexample: a skin upload whose client
filename contains traversal segments. -/
def c5EvilParts : List Part :=
  [⟨str2bytes "weapon", none, str2bytes "ar"⟩,
   ⟨str2bytes "file", some (str2bytes "../../evil.png"), [7, 7]⟩]

/-- **C5 (counterexample).** The claim as stated is false: the primary
file of a skin upload is written to `path.join(weaponFolder, filename)`
with the raw client filename, so the filename `../../evil.png` makes the
handler write `/srv/evil.png`, outside the sandbox root
`/srv/haze-client-assets`, and report success. -/
theorem c5_counterexample :
    (handleUploadSkin ⟨⟨[]⟩, none⟩ c5EvilParts "t").writes =
      [["srv", "evil.png"]] ∧
    ROOTsegs.isPrefixOf ["srv", "evil.png"] = false ∧
    (handleUploadSkin ⟨⟨[]⟩, none⟩ c5EvilParts "t").resp.ok = true ∧
    (handleUploadSkin ⟨⟨[]⟩, none⟩ c5EvilParts "t").st.fs.files.lookup
      ["srv", "evil.png"] = some 2 := by
  decide

end HazeStore
